import Mathlib

/-!
captainslog: the syslog message record, its text form and its JSON export.

A shallow embedding of `syslogmsg.go`.

* Go strings that are text are Lean strings (sequences of Unicode
  characters); `bytesOf` gives their bytes (UTF-8). The one string the code
  makes by cutting a text at a byte position, `Content[1:]`, is taken by its
  bytes, and held as `Value.bytes` where these are not valid UTF-8.
* A Go `map[string]interface{}` is an association list of key/value pairs,
  wrapped in `Option` so that the nil map is told apart from the empty one.
* A call that panics is a result `none` (for `String`), `Outcome.panic`
  (for `JSON`) or `Ended.panicked` (for `AddTagArray`); the record a call
  leaves behind is returned explicitly.
* `Priority`, `Facility`, `Severity` and `time.Time` are declared outside
  `syslogmsg.go`; their renderings are the fields of `Extern`, the JSON
  encoding of a time being partial as `MarshalJSON` is. The content
  classifier `ParseContent` is outside it too, and is a parameter of
  `SetContent`.
* The line parser behind `NewSyslogMsgFromBytes` is not in `syslogmsg.go`
  either: `ParseBytes` is a model of it after the wire format of the spec.
* The record's mutex is not modelled.
-/

namespace Captainslog

/-! ## Values held in `JSONValues` -/

/-- A Go value stored under `interface{}`. -/
inductive Value where
  /-- The value nil. -/
  | null
  /-- A Go bool. -/
  | bool (b : Bool)
  /-- A `json.Number`: the literal text of a number. -/
  | number (lit : String)
  /-- A Go string that is text (valid UTF-8). -/
  | str (s : String)
  /-- A Go string that is not valid UTF-8, given by its bytes: what is left of
  a text that was cut inside a character. -/
  | bytes (b : List Nat)
  /-- A `[]interface{}`. -/
  | array (xs : List Value)
  /-- A `map[string]interface{}`. -/
  | object (kvs : List (String × Value))
  /-- A Go value of any other type, given by what `json.Marshal` makes of it:
  its encoding, or `none` when the encoder rejects it (a channel, a function). -/
  | other (enc : Option String)

/-- Entries of a non-nil Go map. -/
abbrev Entries := List (String × Value)

/-- A Go `map[string]interface{}`; `none` is the nil map. -/
abbrev GoMap := Option Entries

/-- The assignment `m[k] = v` on the entries of a non-nil map. -/
def Entries.assign (k : String) (v : Value) (m : Entries) : Entries :=
  (k, v) :: m.filter (fun e => e.1 ≠ k)

/-- The lookup `m[k]` on the entries of a map. -/
def Entries.get (m : Entries) (k : String) : Option Value :=
  (m.find? (fun e => e.1 = k)).map (fun e => e.2)

/-- Go `len(m)`. -/
def GoMap.len : GoMap → Nat
  | none => 0
  | some m => m.length

/-- Go `v, ok := m[k]`: `none` when the key is absent (also on the nil map). -/
def GoMap.get : GoMap → String → Option Value
  | none, _ => none
  | some m, k => m.get k

/-- Go `m[k] = v`: `none` is the panic of an assignment to an entry of the nil map. -/
def GoMap.set : GoMap → String → Value → Option GoMap
  | none, _, _ => none
  | some m, k, v => some (some (m.assign k v))

/-! ## `encoding/json`: the encoder -/

/-- One of the sixteen digits of `"0123456789abcdef"`. -/
def hexDigit (n : Nat) : Char :=
  if n < 10 then Char.ofNat (48 + n) else Char.ofNat (87 + n)

/-- The characters `encoding/json` writes for one character of a string, with
HTML escaping on as in `json.Marshal`. -/
def escapeChar (c : Char) : List Char :=
  if c = '\\' then ['\\', '\\']
  else if c = '"' then ['\\', '"']
  else if c = '\x08' then ['\\', 'b']
  else if c = '\x0c' then ['\\', 'f']
  else if c = '\n' then ['\\', 'n']
  else if c = '\r' then ['\\', 'r']
  else if c = '\t' then ['\\', 't']
  else if c.toNat < 32 ∨ c = '<' ∨ c = '>' ∨ c = '&' then
    ['\\', 'u', '0', '0', hexDigit (c.toNat / 16), hexDigit (c.toNat % 16)]
  else if c.toNat = 8232 then ['\\', 'u', '2', '0', '2', '8']
  else if c.toNat = 8233 then ['\\', 'u', '2', '0', '2', '9']
  else [c]

/-- The JSON string literal of a Go string. -/
def encodeString (s : String) : String :=
  String.mk ('"' :: (s.data.flatMap escapeChar ++ ['"']))

/-- The UTF-8 encoding of a character: the bytes it takes in a Go string. -/
def utf8Bytes (c : Char) : List Nat :=
  if c.toNat < 128 then [c.toNat]
  else if c.toNat < 2048 then [192 + c.toNat / 64, 128 + c.toNat % 64]
  else if c.toNat < 65536 then
    [224 + c.toNat / 4096, 128 + c.toNat / 64 % 64, 128 + c.toNat % 64]
  else
    [240 + c.toNat / 262144, 128 + c.toNat / 4096 % 64, 128 + c.toNat / 64 % 64,
     128 + c.toNat % 64]

/-- The bytes of a Go string that is text. -/
def bytesOf (s : String) : List Nat := s.data.flatMap utf8Bytes

/-- Whether a byte is a continuation byte, `0x80`..`0xBF`. -/
def isCont (b : Nat) : Bool := 128 ≤ b ∧ b < 192

/-- Go `utf8.DecodeRune` at the head of a byte sequence that is not empty: the
character encoded there and the bytes after it. `none` stands for the result
`(RuneError, 1)`: the first byte starts no valid encoding (a stray
continuation byte, an overlong form, a surrogate, a value above U+10FFFF, or
an encoding cut short). -/
def decodeRune : List Nat → Option (Char × List Nat)
  | [] => none
  | b0 :: r =>
    if b0 < 128 then some (Char.ofNat b0, r)
    else if 194 ≤ b0 ∧ b0 < 224 then
      match r with
      | b1 :: r1 =>
        if isCont b1 then some (Char.ofNat ((b0 - 192) * 64 + (b1 - 128)), r1) else none
      | _ => none
    else if 224 ≤ b0 ∧ b0 < 240 then
      match r with
      | b1 :: b2 :: r2 =>
        if (if b0 = 224 then 160 else 128) ≤ b1 ∧ b1 < (if b0 = 237 then 160 else 192)
            ∧ isCont b2 then
          some (Char.ofNat ((b0 - 224) * 4096 + (b1 - 128) * 64 + (b2 - 128)), r2)
        else none
      | _ => none
    else if 240 ≤ b0 ∧ b0 < 245 then
      match r with
      | b1 :: b2 :: b3 :: r3 =>
        if (if b0 = 240 then 144 else 128) ≤ b1 ∧ b1 < (if b0 = 244 then 144 else 192)
            ∧ isCont b2 ∧ isCont b3 then
          some (Char.ofNat ((b0 - 240) * 262144 + (b1 - 128) * 4096 + (b2 - 128) * 64
            + (b3 - 128)), r3)
        else none
      | _ => none
    else none

/-- The characters of a byte sequence that is valid UTF-8, `none` where it is
not. The first argument bounds the number of characters; the length of the
sequence is enough. -/
def textOf : Nat → List Nat → Option (List Char)
  | _, [] => some []
  | 0, _ :: _ => none
  | fuel + 1, b :: bs =>
    match decodeRune (b :: bs) with
    | none => none
    | some (c, rest) => (textOf fuel rest).map (fun cs => c :: cs)

/-- The Go string with the given bytes, as a value. -/
def Value.ofBytes (b : List Nat) : Value :=
  match textOf b.length b with
  | some cs => .str (String.mk cs)
  | none => .bytes b

/-- What `encoding/json` writes between the quotes for a string given by its
bytes: the characters it decodes, escaped as in `escapeChar`, and the six
characters `\ufffd` for each byte that starts no valid encoding. The first
argument bounds the number of steps; the length of the sequence is enough. -/
def escapeBytes : Nat → List Nat → List Char
  | _, [] => []
  | 0, _ :: _ => []
  | fuel + 1, b :: bs =>
    match decodeRune (b :: bs) with
    | none => ['\\', 'u', 'f', 'f', 'f', 'd'] ++ escapeBytes fuel bs
    | some (c, rest) => escapeChar c ++ escapeBytes fuel rest

/-- The JSON string literal of a Go string given by its bytes. -/
def encodeBytes (b : List Nat) : String :=
  String.mk ('"' :: (escapeBytes b.length b ++ ['"']))

/-- Whether a character is a decimal digit. -/
def isDigit (c : Char) : Bool := '0' ≤ c ∧ c ≤ '9'

/-- The digits part of `isValidNumber`: what is left after `0` or a run of
digits that starts with `1`..`9`. -/
def numInt : List Char → Option (List Char)
  | [] => none
  | c :: cs =>
    if c = '0' then some cs
    else if '1' ≤ c ∧ c ≤ '9' then some (cs.dropWhile isDigit)
    else none

/-- The fraction part of `isValidNumber`: a `.` and one or more digits, when present. -/
def numFrac : List Char → List Char
  | '.' :: d :: cs => if isDigit d then cs.dropWhile isDigit else '.' :: d :: cs
  | cs => cs

/-- The exponent part of `isValidNumber`; `none` where the Go code returns false. -/
def numExp : List Char → Option (List Char)
  | e :: c :: cs =>
    if e = 'e' ∨ e = 'E' then
      if c = '+' ∨ c = '-' then
        (if cs = [] then none else some (cs.dropWhile isDigit))
      else some ((c :: cs).dropWhile isDigit)
    else some (e :: c :: cs)
  | cs => some cs

/-- Go `isValidNumber`: whether a string is a JSON number literal. -/
def isValidNumber (s : String) : Bool :=
  match s.data with
  | [] => false
  | c :: cs =>
    let body := if c = '-' then cs else c :: cs
    if body = [] then false
    else
      match numInt body with
      | none => false
      | some r =>
        match numExp (numFrac r) with
        | none => false
        | some r2 => r2 = []

/-- The encoding of a `json.Number`: the empty literal is written `0`, an
invalid literal is an error. -/
def encodeNumber (lit : String) : Option String :=
  let numStr := if lit = "" then "0" else lit
  if isValidNumber numStr then some numStr else none

/-- Go `<` on strings: the lexicographic order of their characters. -/
def ltChars : List Char → List Char → Bool
  | _, [] => false
  | [], _ :: _ => true
  | a :: as, b :: bs =>
    if a.toNat < b.toNat then true
    else if b.toNat < a.toNat then false
    else ltChars as bs

/-- Go `a < b` on strings, the order in which the encoder sorts map keys. -/
def keyLess (a b : String) : Bool := ltChars a.data b.data

/-- Insertion of one encoded member into a list sorted by key. -/
def insertMember (a : String × String) : List (String × String) → List (String × String)
  | [] => [a]
  | b :: bs => if keyLess b.1 a.1 then b :: insertMember a bs else a :: b :: bs

/-- The encoder's ordering of an object's members: sorted by key. -/
def sortMembers : List (String × String) → List (String × String)
  | [] => []
  | a :: as => insertMember a (sortMembers as)

/-- The texts of a list joined by commas. -/
def joinComma : List String → String
  | [] => ""
  | [a] => a
  | a :: b :: rest => a ++ "," ++ joinComma (b :: rest)

/-- The text `"key":value` of one encoded member. -/
def memberText (a : String × String) : String :=
  encodeString a.1 ++ ":" ++ a.2

/-- The text of an object from its encoded members. -/
def objectText (ms : List (String × String)) : String :=
  "\x7b" ++ joinComma ((sortMembers ms).map memberText) ++ "\x7d"

mutual
/-- The `json.Marshal` encoding of a value; `none` is an encoding error. -/
def encodeValue : Value → Option String
  | .null => some "null"
  | .bool b => some (if b then "true" else "false")
  | .number lit => encodeNumber lit
  | .str s => some (encodeString s)
  | .bytes b => some (encodeBytes b)
  | .array xs => (encodeElems xs).map (fun es => "[" ++ joinComma es ++ "]")
  | .object kvs => (encodeMembers kvs).map objectText
  | .other enc => enc
/-- The encodings of the elements of an array, in order. -/
def encodeElems : List Value → Option (List String)
  | [] => some []
  | x :: xs =>
    match encodeValue x, encodeElems xs with
    | some e, some es => some (e :: es)
    | _, _ => none
/-- The encodings of the members of an object, each with its key. -/
def encodeMembers : List (String × Value) → Option (List (String × String))
  | [] => some []
  | (k, v) :: kvs =>
    match encodeValue v, encodeMembers kvs with
    | some e, some es => some ((k, e) :: es)
    | _, _ => none
end

/-- Go `json.Marshal(m)` for a `map[string]interface{}`: the nil map is `null`. -/
def marshal : GoMap → Option String
  | none => some "null"
  | some m => encodeValue (.object m)

/-! ## Tag -/

/-- The tag of a syslog message. -/
structure Tag where
  Program : String
  Pid : String
  HasColon : Bool

/-- Go `NewTag`. -/
def NewTag : Tag := { Program := "", Pid := "", HasColon := true }

/-- Go `Tag.String`. -/
def Tag.String (t : Tag) : String :=
  let colon := if t.HasColon then ":" else ""
  if t.Pid.length = 0 then t.Program ++ colon
  else t.Program ++ "[" ++ t.Pid ++ "]" ++ colon

/-! ## `encoding/json`: the decoder -/

/-- The errors of `encoding/json`. -/
inductive JSONError where
  /-- The input is not JSON text: `*json.SyntaxError`, `io.EOF`, `io.ErrUnexpectedEOF`. -/
  | malformed
  /-- The JSON value does not fit the Go value: `*json.UnmarshalTypeError`. -/
  | unmarshalType
  /-- The encoder rejects a value: `*json.UnsupportedTypeError`, `*json.MarshalerError`. -/
  | marshal
  deriving DecidableEq, Repr

/-- The scanner's `isSpace`. -/
def isSpace (c : Char) : Bool := c = ' ' ∨ c = '\t' ∨ c = '\r' ∨ c = '\n'

/-- The input without its leading white space. -/
def skipSpace (cs : List Char) : List Char := cs.dropWhile isSpace

/-- The value of one hexadecimal digit. -/
def hexVal (c : Char) : Option Nat :=
  if '0' ≤ c ∧ c ≤ '9' then some (c.toNat - 48)
  else if 'a' ≤ c ∧ c ≤ 'f' then some (c.toNat - 87)
  else if 'A' ≤ c ∧ c ≤ 'F' then some (c.toNat - 55)
  else none

/-- Go `getu4` after the `\u`: the value of four hexadecimal digits and the rest. -/
def hex4 : List Char → Option (Nat × List Char)
  | a :: b :: c :: d :: rest =>
    match hexVal a, hexVal b, hexVal c, hexVal d with
    | some x, some y, some z, some w => some (((x * 16 + y) * 16 + z) * 16 + w, rest)
    | _, _, _, _ => none
  | _ => none

/-- The second half of a surrogate pair: for a first half `hi` followed by an
escape `\uXXXX` that completes it, the character of the pair and the rest. -/
def surrogatePair (hi : Nat) : List Char → Option (Char × List Char)
  | '\\' :: 'u' :: rest =>
    match hex4 rest with
    | some (lo, rest2) =>
      if hi < 56320 ∧ 56320 ≤ lo ∧ lo < 57344 then
        some (Char.ofNat ((hi - 55296) * 1024 + (lo - 56320) + 65536), rest2)
      else none
    | none => none
  | _ => none

/-- The character of a one-letter escape. -/
def simpleEscape (e : Char) : Option Char :=
  if e = '"' then some '"'
  else if e = '\\' then some '\\'
  else if e = '/' then some '/'
  else if e = 'b' then some '\x08'
  else if e = 'f' then some '\x0c'
  else if e = 'n' then some '\n'
  else if e = 'r' then some '\r'
  else if e = 't' then some '\t'
  else none

/-- A string literal after its opening quote: the string it denotes and the
input after the closing quote. -/
def parseString : Nat → List Char → Option (List Char × List Char)
  | 0, _ => none
  | fuel + 1, cs =>
    match cs with
    | [] => none
    | c :: rest =>
      if c = '"' then some ([], rest)
      else if c = '\\' then
        match rest with
        | [] => none
        | e :: rest2 =>
          if e = 'u' then
            match hex4 rest2 with
            | none => none
            | some (rr, rest3) =>
              if 55296 ≤ rr ∧ rr < 57344 then
                match surrogatePair rr rest3 with
                | some (ch, rest4) =>
                  (parseString fuel rest4).map (fun r => (ch :: r.1, r.2))
                | none => (parseString fuel rest3).map (fun r => (Char.ofNat 65533 :: r.1, r.2))
              else (parseString fuel rest3).map (fun r => (Char.ofNat rr :: r.1, r.2))
          else
            match simpleEscape e with
            | some ch => (parseString fuel rest2).map (fun r => (ch :: r.1, r.2))
            | none => none
      else if c.toNat < 32 then none
      else (parseString fuel rest).map (fun r => (c :: r.1, r.2))

/-- The exponent of a number literal, when there is one. -/
def parseExp (lit : List Char) : List Char → Option (List Char × List Char)
  | [] => some (lit, [])
  | e :: r =>
    if e = 'e' ∨ e = 'E' then
      match r with
      | [] => none
      | g :: r1 =>
        if g = '+' ∨ g = '-' then
          (if r1.takeWhile isDigit = [] then none
           else some (lit ++ e :: g :: r1.takeWhile isDigit, r1.dropWhile isDigit))
        else
          (if isDigit g then some (lit ++ e :: (g :: r1).takeWhile isDigit, (g :: r1).dropWhile isDigit)
           else none)
    else some (lit, e :: r)

/-- The fraction of a number literal, when there is one, and what follows. -/
def parseFrac (lit : List Char) : List Char → Option (List Char × List Char)
  | '.' :: r =>
    if r.takeWhile isDigit = [] then none
    else parseExp (lit ++ '.' :: r.takeWhile isDigit) (r.dropWhile isDigit)
  | cs => parseExp lit cs

/-- A number literal: its text and the input after it. -/
def parseNumber (cs : List Char) : Option (List Char × List Char) :=
  let sign : List Char := match cs with
    | '-' :: _ => ['-']
    | _ => []
  let body : List Char := match cs with
    | '-' :: r => r
    | _ => cs
  match body with
  | [] => none
  | d :: r =>
    if d = '0' then parseFrac (sign ++ ['0']) r
    else if '1' ≤ d ∧ d ≤ '9' then
      parseFrac (sign ++ d :: r.takeWhile isDigit) (r.dropWhile isDigit)
    else none

/-- The map a JSON object decodes to: its members assigned in order, a later
member replacing an earlier one of the same key. -/
def fromMembers (ms : List (String × Value)) : Entries :=
  ms.foldl (fun m e => m.assign e.1 e.2) []

/-- The input after the letters `w`, when it starts with them. -/
def afterWord : List Char → List Char → Option (List Char)
  | [], cs => some cs
  | _ :: _, [] => none
  | w :: ws, c :: cs => if c = w then afterWord ws cs else none

/-- The scanner's `maxNestingDepth`. -/
def maxNestingDepth : Nat := 10000

mutual
/-- One JSON value at the head of the input (no leading white space), decoded
as into an `interface{}` with `UseNumber`, and the input after it. `depth` is
the number of arrays and objects that are open. -/
def parseValue : Nat → Nat → List Char → Option (Value × List Char)
  | 0, _, _ => none
  | fuel + 1, depth, cs =>
    match cs with
    | [] => none
    | c :: rest =>
      if c = '{' then
        if maxNestingDepth ≤ depth then none
        else
          match skipSpace rest with
          | [] => none
          | d :: rest2 =>
            if d = '}' then some (.object [], rest2)
            else
              (parseMembers fuel (depth + 1) (d :: rest2)).map
                (fun r => (.object (fromMembers r.1), r.2))
      else if c = '[' then
        if maxNestingDepth ≤ depth then none
        else
          match skipSpace rest with
          | [] => none
          | d :: rest2 =>
            if d = ']' then some (.array [], rest2)
            else (parseElems fuel (depth + 1) (d :: rest2)).map (fun r => (.array r.1, r.2))
      else if c = '"' then
        (parseString (rest.length + 1) rest).map (fun r => (.str (String.mk r.1), r.2))
      else if c = 't' then (afterWord ['r', 'u', 'e'] rest).map (fun r => (.bool true, r))
      else if c = 'f' then (afterWord ['a', 'l', 's', 'e'] rest).map (fun r => (.bool false, r))
      else if c = 'n' then (afterWord ['u', 'l', 'l'] rest).map (fun r => (.null, r))
      else if c = '-' ∨ isDigit c then
        (parseNumber (c :: rest)).map (fun r => (.number (String.mk r.1), r.2))
      else none
/-- The elements of an array from its first value to the closing bracket. -/
def parseElems : Nat → Nat → List Char → Option (List Value × List Char)
  | 0, _, _ => none
  | fuel + 1, depth, cs =>
    match parseValue fuel depth cs with
    | none => none
    | some (v, rest) =>
      match skipSpace rest with
      | [] => none
      | d :: rest2 =>
        if d = ',' then
          (parseElems fuel depth (skipSpace rest2)).map (fun r => (v :: r.1, r.2))
        else if d = ']' then some ([v], rest2)
        else none
/-- The members of an object from its first key to the closing brace. -/
def parseMembers : Nat → Nat → List Char → Option (List (String × Value) × List Char)
  | 0, _, _ => none
  | fuel + 1, depth, cs =>
    match cs with
    | [] => none
    | q :: afterQuote =>
      if q = '"' then
        match parseString (afterQuote.length + 1) afterQuote with
        | none => none
        | some (key, rest) =>
          match skipSpace rest with
          | [] => none
          | colon :: rest1 =>
            if colon = ':' then
              match parseValue fuel depth (skipSpace rest1) with
              | none => none
              | some (v, rest2) =>
                match skipSpace rest2 with
                | [] => none
                | d :: rest3 =>
                  if d = ',' then
                    (parseMembers fuel depth (skipSpace rest3)).map
                      (fun r => ((String.mk key, v) :: r.1, r.2))
                  else if d = '}' then some ([(String.mk key, v)], rest3)
                  else none
            else none
      else none
end

/-- The first JSON value of a text, as `json.Decoder.Decode` reads it with
`UseNumber`: leading white space is skipped, what follows the value is left
unread. -/
def decodeValue (c : String) : Option Value :=
  (parseValue (2 * c.length + 2) 0 (skipSpace c.data)).map (fun r => r.1)

/-- Go `decoder.Decode(&content)` with `UseNumber`, for `content` an empty
`map[string]interface{}`: the map afterwards. A JSON object fills the map, the
JSON value `null` sets it to nil without an error, any other value is an
`UnmarshalTypeError`. -/
def decodeObject (c : String) : Except JSONError GoMap :=
  match decodeValue c with
  | none => .error .malformed
  | some (.object m) => .ok (some m)
  | some .null => .ok none
  | some _ => .error .unmarshalType

/-! ## The message record -/

/-- What `syslogmsg.go` uses of `Priority`, `Facility`, `Severity` and
`time.Time`, which are declared elsewhere: `T` stands for `time.Time` and `P`
for `Priority`. -/
structure Extern (T P : Type) where
  /-- The text `fmt.Sprintf` writes for a `Priority` under `%s`. -/
  priString : P → String
  /-- Go `time.Time.Format(layout)`. -/
  format : T → String → String
  /-- The JSON encoding of a `time.Time`: what `MarshalJSON` returns, `none`
  where it returns an error (a time whose year is outside 0..9999). -/
  timeJSON : T → Option String
  /-- Go `Pri.Facility.String()`. -/
  facilityString : P → String
  /-- Go `Pri.Severity.String()`. -/
  severityString : P → String
  /-- The zero `Priority`. -/
  zeroPri : P
  /-- The zero `time.Time`. -/
  zeroTime : T

/-- Go `SyslogMsg`, without its mutex. -/
structure SyslogMsg (T P : Type) where
  Pri : P
  Time : T
  Host : String
  Tag : Tag
  Cee : String
  IsJSON : Bool
  IsCee : Bool
  optionDontParseJSON : Bool
  Content : String
  timeFormat : String
  JSONValues : GoMap

/-- Go `NewSyslogMsg`: every field zero, the map made. -/
def NewSyslogMsg {T P : Type} (ext : Extern T P) : SyslogMsg T P :=
  { Pri := ext.zeroPri, Time := ext.zeroTime, Host := "",
    Tag := { Program := "", Pid := "", HasColon := false },
    Cee := "", IsJSON := false, IsCee := false, optionDontParseJSON := false,
    Content := "", timeFormat := "", JSONValues := some [] }

set_option linter.dupNamespace false in
/-- Go `Content`: what the content classifier `ParseContent` hands back. -/
structure Content where
  Content : String
  JSONValues : GoMap

/-- The content classifier as `SetContent` uses it: `classify c` stands for
`ParseContent([]byte(c), ContentOptionParseJSON)`, a function that is not in
`syslogmsg.go`, and gives its `Content` and its error (`SetContent` drops its
first result). -/
abbrev Classifier (E : Type) := String → Content × Option E

/-- How a call of a method that returns an `error` ends: it returns (`none`
is the nil error), or it panics. -/
inductive Ended (E : Type) where
  | returned (err : Option E)
  | panicked
  deriving DecidableEq, Repr

/-- Go `SetTime`. -/
def SyslogMsg.SetTime {T P : Type} (s : SyslogMsg T P) (t : T) : SyslogMsg T P :=
  { s with Time := t }

/-- Go `SetProgram`. -/
def SyslogMsg.SetProgram {T P : Type} (s : SyslogMsg T P) (p : String) : SyslogMsg T P :=
  { s with Tag := { s.Tag with Program := p } }

/-- Go `SetPid`. -/
def SyslogMsg.SetPid {T P : Type} (s : SyslogMsg T P) (p : String) : SyslogMsg T P :=
  { s with Tag := { s.Tag with Pid := p } }

/-- Go `SetHost`. -/
def SyslogMsg.SetHost {T P : Type} (s : SyslogMsg T P) (h : String) : SyslogMsg T P :=
  { s with Host := h }

/-- Go `SetContent`: the record after the call and the returned error. -/
def SyslogMsg.SetContent {T P E : Type} (classify : Classifier E)
    (s : SyslogMsg T P) (c : String) : SyslogMsg T P × Option E :=
  ({ s with Content := (classify c).1.Content, JSONValues := (classify c).1.JSONValues },
   (classify c).2)

/-- Go `AddTag`: `none` is the panic of an assignment into the nil map. -/
def SyslogMsg.AddTag {T P : Type} (s : SyslogMsg T P) (key : String) (value : Value) :
    Option (SyslogMsg T P) :=
  (s.JSONValues.set key value).map (fun m => { s with JSONValues := m })

/-- Go `s[1:]`: the string whose bytes are those of `s` without the first;
`none` is the panic "slice bounds out of range" on the empty string. The
slice is by bytes: after a first character of one byte the result is the
text without that character, after a first character of several bytes it
starts with the bytes left of that character and is not valid UTF-8. -/
def sliceFrom1 (s : String) : Option Value :=
  match bytesOf s with
  | [] => none
  | _ :: rest => some (Value.ofBytes rest)

/-- The text of the error of `AddTagArray`. -/
def notAnArray : String := "tags key in message was not an array"

/-- Go `AddTagArray`: the record after the call and how the call ended. -/
def SyslogMsg.AddTagArray {T P : Type} (s : SyslogMsg T P) (key : String) (value : Value) :
    SyslogMsg T P × Ended String :=
  let made : Option GoMap :=
    match s.JSONValues.get key with
    | some _ => some s.JSONValues
    | none => s.JSONValues.set key (.array [])
  match made with
  | none => (s, .panicked)
  | some m1 =>
    match m1.get key with
    | some (.array val) =>
      match m1.set key (.array (val ++ [value])) with
      | none => ({ s with JSONValues := m1 }, .panicked)
      | some m2 =>
        if !s.IsCee then
          match sliceFrom1 s.Content with
          | none => ({ s with JSONValues := m2, IsCee := true, Cee := " @cee:" }, .panicked)
          | some rest =>
            match m2.set "msg" rest with
            | none => ({ s with JSONValues := m2, IsCee := true, Cee := " @cee:" }, .panicked)
            | some m3 =>
              ({ s with JSONValues := m3, IsCee := true, Cee := " @cee:" }, .returned none)
        else ({ s with JSONValues := m2 }, .returned none)
    | _ => ({ s with JSONValues := m1 }, .returned (some notAnArray))

/-- Go `strings.TrimLeft(s, " ")`. -/
def trimLeftSpaces (s : String) : String :=
  String.mk (s.data.dropWhile (fun c => c = ' '))

/-- The line `fmt.Sprintf("<%s>%s %s %s%s%s\n", s.Pri, s.Time.Format(s.timeFormat),
s.Host, s.Tag, s.Cee, content)`. -/
def SyslogMsg.line {T P : Type} (ext : Extern T P) (s : SyslogMsg T P) (content : String) :
    String :=
  "<" ++ ext.priString s.Pri ++ ">" ++ ext.format s.Time s.timeFormat ++ " " ++ s.Host ++ " "
    ++ s.Tag.String ++ s.Cee ++ content ++ "\n"

/-- Go `SyslogMsg.String`: the record after the call and the returned line;
`none` is `panic(err)`. -/
def SyslogMsg.String {T P : Type} (ext : Extern T P) (s : SyslogMsg T P) :
    SyslogMsg T P × Option String :=
  if s.IsJSON && !s.optionDontParseJSON then
    match marshal s.JSONValues with
    | none => (s, none)
    | some b => (s, some (s.line ext b))
  else if 0 < s.JSONValues.len then
    match s.JSONValues.set "msg" (.str (trimLeftSpaces s.Content)) with
    | none => (s, none)
    | some m =>
      let s1 : SyslogMsg T P := { s with JSONValues := m, IsCee := true, Cee := " @cee:" }
      match marshal s1.JSONValues with
      | none => (s1, none)
      | some b => (s1, some (s1.line ext b))
  else (s, some (s.line ext s.Content))

/-- Go `SyslogMsg.Bytes`. -/
def SyslogMsg.Bytes {T P : Type} (ext : Extern T P) (s : SyslogMsg T P) :=
  s.String ext

/-- What a call of `JSON` does: it returns bytes and an error, or it panics. -/
inductive Outcome where
  | ret (b : String) (err : Option JSONError)
  | panic
  deriving DecidableEq, Repr

/-- The loop `for key, value := range src { dst[key] = value }`; `none` is the
panic of an assignment into the nil map. The entries are visited last to
first (Go leaves the order open; for a map, whose keys are distinct, the
result does not depend on it). -/
def copyInto (src : GoMap) (dst : GoMap) : Option GoMap :=
  match src with
  | none => some dst
  | some m => m.foldr (fun e acc => acc.bind (fun d => d.set e.1 e.2)) (some dst)

/-- The map `content` that `JSON` starts from: empty, or, when
`optionDontParseJSON` and `IsCee` are set, what decoding `Content` leaves. -/
def SyslogMsg.seed {T P : Type} (s : SyslogMsg T P) : Except JSONError GoMap :=
  if s.optionDontParseJSON && s.IsCee then decodeObject s.Content else .ok (some [])

/-- The assignments of the seven `syslog_` keys, and of `syslog_content` when
`IsCee` is false, that `JSON` makes to `content`. `none` is the panic of an
assignment into the nil map. -/
def SyslogMsg.stamp {T P : Type} (ext : Extern T P) (s : SyslogMsg T P) (content : GoMap) :
    Option GoMap := do
  let c ← content.set "syslog_time" (.other (ext.timeJSON s.Time))
  let c ← c.set "syslog_host" (.str s.Host)
  let c ← c.set "syslog_tag" (.str s.Tag.String)
  let c ← c.set "syslog_programname" (.str s.Tag.Program)
  let c ← c.set "syslog_pid" (.str s.Tag.Pid)
  let c ← c.set "syslog_facilitytext" (.str (ext.facilityString s.Pri))
  let c ← c.set "syslog_severitytext" (.str (ext.severityString s.Pri))
  if !s.IsCee then c.set "syslog_content" (.str s.Content) else some c

/-- What `JSON` does to `content` after the decoding: the copy of `JSONValues`
into it, then the `syslog_` keys. `none` is a panic. -/
def SyslogMsg.fill {T P : Type} (ext : Extern T P) (s : SyslogMsg T P) (content : GoMap) :
    Option GoMap :=
  (copyInto s.JSONValues content).bind (s.stamp ext)

/-- Go `SyslogMsg.JSON`. -/
def SyslogMsg.JSON {T P : Type} (ext : Extern T P) (s : SyslogMsg T P) : Outcome :=
  match s.seed with
  | .error e => .ret "" (some e)
  | .ok content =>
    match s.fill ext content with
    | none => .panic
    | some c =>
      match marshal c with
      | some b => .ret b none
      | none => .ret "" (some .marshal)

/-! ## The line parser -/

/-- Modelled from the spec: the collaborators of the line parser, which is not
in `syslogmsg.go` (`NewParser`, `Parser.ParseBytes`). The spec names them as
"facility/severity/priority decoding, timestamp format detection" and the
content classifier; `T` stands for `time.Time` and `P` for `Priority`. -/
structure LineGrammar (T P : Type) where
  /-- Priority decoding: the `Priority` written between `<` and `>`, `none`
  where the text is no priority. -/
  priority : String → Option P
  /-- Timestamp format detection: the instant written at the head of the
  input, the layout it is written in, and the input after it; `none` where
  the input starts with no timestamp. -/
  timestamp : List Char → Option (T × String × List Char)
  /-- The verdict of the content classifier that a body is plain text,
  neither JSON nor CEE. -/
  plainBody : String → Bool

/-- Modelled from the spec: what the line parser reads of a line that ends
with the newline of the wire format ("terminated by a single newline"): the
line without that newline. A line without one is read as it is. -/
def withoutNewline (cs : List Char) : List Char :=
  if cs.getLast? = some '\n' then cs.dropLast else cs

/-- Modelled from the spec: a step of the line parser at a literal character
of the wire format (`<`, `>`, a space): the input after the character `c`,
`none` (a parse error) where the input does not start with it. -/
def expect (c : Char) : List Char → Option (List Char)
  | [] => none
  | d :: rest => if d = c then some rest else none

/-- Modelled from the spec: the tag tokenization of the line parser, the
reading of `GGG[PPP]:` in the wire format: a program name up to a space, a `[`
or a `:`, then a process id between brackets when a `[` follows, then a colon
when one follows. The result is the tag and the input after it, which is the
body; `none` (a parse error) where a bracket is not closed or holds no
process id. -/
def parseTag (cs : List Char) : Option (Tag × List Char) :=
  let program := String.mk (cs.takeWhile (fun c => c ≠ ' ' ∧ c ≠ '[' ∧ c ≠ ':'))
  match cs.dropWhile (fun c => c ≠ ' ' ∧ c ≠ '[' ∧ c ≠ ':') with
  | '[' :: r1 =>
    match r1.dropWhile (fun c => c ≠ ']') with
    | ']' :: r2 =>
      if r1.takeWhile (fun c => c ≠ ']') = [] then none
      else
        match r2 with
        | ':' :: r3 =>
          some ({ Program := program, Pid := String.mk (r1.takeWhile (fun c => c ≠ ']')),
                  HasColon := true }, r3)
        | _ =>
          some ({ Program := program, Pid := String.mk (r1.takeWhile (fun c => c ≠ ']')),
                  HasColon := false }, r2)
    | _ => none
  | ':' :: r1 => some ({ Program := program, Pid := "", HasColon := true }, r1)
  | r => some ({ Program := program, Pid := "", HasColon := false }, r)

/-- Modelled from the spec: the line parser (`Parser.ParseBytes`, which is not
in `syslogmsg.go`) on a plain message. It reads the wire format
`<P>TTT HHH GGG[PPP]:BODY\n`: the priority between `<` and `>`, the timestamp
and its layout, a space, the host up to the next space, the tag, and the body,
which is all the rest "exactly as received, including any leading separator
characters". The record is "populated in one step" from these: `Content` is
the body, `JSONValues` is made and empty ("empty unless the body was JSON"),
`IsJSON` and `IsCee` are false and `Cee` is empty. `none` stands for a parse
error, and also for a body that the content classifier takes as JSON or CEE,
a message this definition does not describe. -/
def ParseBytes {T P : Type} (g : LineGrammar T P) (b : String) : Option (SyslogMsg T P) :=
  match expect '<' (withoutNewline b.data) with
  | none => none
  | some r0 =>
    match g.priority (String.mk (r0.takeWhile (fun c => c ≠ '>'))),
          expect '>' (r0.dropWhile (fun c => c ≠ '>')) with
    | some pri, some r1 =>
      match g.timestamp r1 with
      | none => none
      | some (t, layout, r2) =>
        match expect ' ' r2 with
        | none => none
        | some r3 =>
          match expect ' ' (r3.dropWhile (fun c => c ≠ ' ')) with
          | none => none
          | some r4 =>
            match parseTag r4 with
            | none => none
            | some (tag, body) =>
              if g.plainBody (String.mk body) then
                some { Pri := pri, Time := t, Host := String.mk (r3.takeWhile (fun c => c ≠ ' ')),
                       Tag := tag, Cee := "", IsJSON := false, IsCee := false,
                       optionDontParseJSON := false, Content := String.mk body,
                       timeFormat := layout, JSONValues := some [] }
              else none
    | _, _ => none

/-- Go `NewSyslogMsgFromBytes`, called without options: the record the line
parser makes of the bytes, `none` where it returns an error. -/
def NewSyslogMsgFromBytes {T P : Type} (g : LineGrammar T P) (b : String) :
    Option (SyslogMsg T P) :=
  ParseBytes g b

/-! ## Sample data: the records of `syslogmsg_test.go` -/

/-- A sample `time.Time`: an instant given by its two renderings. -/
structure SampleTime where
  /-- Its text in the format it was parsed with. -/
  text : String
  /-- Its JSON encoding; `none` for an instant that `MarshalJSON` rejects. -/
  json : Option String

/-- A sample `Priority`: its rendering and the names of its facility and severity. -/
structure SamplePri where
  code : String
  facility : String
  severity : String

/-- The renderings of the sample priority and time. -/
def sampleExt : Extern SampleTime SamplePri :=
  { priString := fun p => p.code, format := fun t _ => t.text, timeJSON := fun t => t.json,
    facilityString := fun p => p.facility, severityString := fun p => p.severity,
    zeroPri := { code := "0", facility := "kern", severity := "emerg" },
    zeroTime := { text := "0001-01-01T00:00:00Z", json := some "\"0001-01-01T00:00:00Z\"" } }

/-- The record of `<4>2016-03-08T14:59:36.293816+00:00 host.example.com kernel[12]: test`
(`TestSyslogMsgToStringWithPid`). -/
def sampleMsg : SyslogMsg SampleTime SamplePri :=
  { Pri := { code := "4", facility := "kern", severity := "warning" },
    Time := { text := "2016-03-08T14:59:36.293816+00:00",
              json := some "\"2016-03-08T14:59:36.293816Z\"" },
    Host := "host.example.com",
    Tag := { Program := "kernel", Pid := "12", HasColon := true },
    Cee := "", IsJSON := false, IsCee := false, optionDontParseJSON := false,
    Content := " test", timeFormat := "2006-01-02T15:04:05.999999-07:00",
    JSONValues := some [] }

/-- The record of `<4>... host.example.com kernel: test` (`TestSyslogMsgJSONFromPlain`). -/
def sampleKernel : SyslogMsg SampleTime SamplePri :=
  { sampleMsg with Tag := { Program := "kernel", Pid := "", HasColon := true } }

/-- A sample `time.Time` in the year 10000: `Format` renders it, `MarshalJSON`
returns an error for it ("year outside of range [0,9999]"). -/
def sampleFarTime : SampleTime :=
  { text := "10000-01-01T00:00:00+00:00", json := none }

/-- The record of `TestSyslogMsgJSONFromPlain` after `SetTime` with the time
of the year 10000. -/
def sampleFar : SyslogMsg SampleTime SamplePri :=
  sampleKernel.SetTime sampleFarTime

/-- The sample record with a `tags` key added (`TestSyslogMsgPlainWithAddedKeys`). -/
def sampleTagged : SyslogMsg SampleTime SamplePri :=
  { sampleMsg with JSONValues := some [("tags", .other (some "[\"trace\"]"))] }

/-- The sample record with the JSON body `{"a":"b"}`. -/
def sampleJSON : SyslogMsg SampleTime SamplePri :=
  { sampleMsg with IsJSON := true, Content := "\x7b\"a\":\"b\"\x7d",
                   JSONValues := some [("a", .str "b")] }

/-- The input line of `TestNginxToSyslogMsgBackToString`, which the parser
accepts: it has no newline at its end, and the test wants it back with `"\n"`
appended. -/
def nginxLine : String :=
  "<174>2017-04-12T13:31:11.918068+00:00 www.example.com nginx 192.168.1.1 - - [12/Apr/2017:13:31:11 +0000] \"GET /hello?from=world HTTP/1.1\" 200 18 \"https://something.example.com\" \"Mozilla/5.0 (Windows NT 10.0; Win64; x64) AppleWebKit/537.36 (KHTML, like Gecko) Chrome/57.0.2987.133 Safari/537.36\""

/-- The names of the seven keys `JSON` always sets. -/
def reservedKeys : List String :=
  ["syslog_time", "syslog_host", "syslog_tag", "syslog_programname", "syslog_pid",
   "syslog_facilitytext", "syslog_severitytext"]

/-- A record whose `JSONValues` has a key named `syslog_content`, and `IsCee` false. -/
def sampleShadow : SyslogMsg SampleTime SamplePri :=
  { sampleKernel with JSONValues := some [("syslog_content", .str "from the caller")] }

/-- The record of a CEE message whose body has a key named `syslog_content`. -/
def sampleCeeShadow : SyslogMsg SampleTime SamplePri :=
  { sampleKernel with IsCee := true, Cee := " @cee:",
                      Content := "\x7b\"syslog_content\":\"from the body\"\x7d",
                      JSONValues := some [("syslog_content", .str "from the body")] }

/-- The record of `TestSyslogMsgJSONFromCEE`: tag `test[12]:`, body `@cee:{"a":1}`. -/
def sampleCee : SyslogMsg SampleTime SamplePri :=
  { sampleMsg with Tag := { Program := "test", Pid := "12", HasColon := true },
                   IsCee := true, Cee := " @cee:", Content := "\x7b\"a\":1\x7d",
                   JSONValues := some [("a", .number "1")] }

/-- A CEE record built with `OptionDontParseJSON` whose body is the JSON value `null`. -/
def sampleNullBody : SyslogMsg SampleTime SamplePri :=
  { sampleKernel with IsCee := true, Cee := " @cee:", optionDontParseJSON := true,
                      Content := "null", JSONValues := some [] }

/-- A CEE record whose `JSONValues` holds a key named `syslog_host` beside the key `a`. -/
def sampleSpoofed : SyslogMsg SampleTime SamplePri :=
  { sampleCee with JSONValues := some [("syslog_host", .str "spoofed"), ("a", .number "1")] }

/-- The map `JSON` encodes for `sampleSpoofed`. -/
def sampleSpoofedExport : GoMap :=
  some [ ("syslog_severitytext", .str "warning"), ("syslog_facilitytext", .str "kern"),
         ("syslog_pid", .str "12"), ("syslog_programname", .str "test"),
         ("syslog_tag", .str "test[12]:"), ("syslog_host", .str "host.example.com"),
         ("syslog_time", .other (some "\"2016-03-08T14:59:36.293816Z\"")),
         ("a", .number "1") ]

/-- The map `JSON` encodes for `sampleCee`. -/
def sampleCeeExport : GoMap :=
  some [ ("syslog_severitytext", .str "warning"), ("syslog_facilitytext", .str "kern"),
         ("syslog_pid", .str "12"), ("syslog_programname", .str "test"),
         ("syslog_tag", .str "test[12]:"), ("syslog_host", .str "host.example.com"),
         ("syslog_time", .other (some "\"2016-03-08T14:59:36.293816Z\"")),
         ("a", .number "1") ]

/-- Modelled from the spec: the decoding of a CEE body at construction time
("eager"), which is done by the content classifier `ParseContent`, a function
that is not in `syslogmsg.go`. The spec describes the option as deferring this
same decoding to the export ("raw CEE bodies are not eagerly decoded into
`StructuredContent` at construction time; decoding is deferred to JSON
export"), so the eager decoding is the decoding `JSON` does. -/
def eagerDecode (c : String) : Except JSONError GoMap := decodeObject c

/-- The record of `TestSyslogMsgJSONFromCEEWithDontParseJSON`: tag `kernel:`, body
`@cee:{"a":1}`, built with `OptionDontParseJSON`. -/
def sampleLazy : SyslogMsg SampleTime SamplePri :=
  { sampleKernel with IsCee := true, Cee := " @cee:", optionDontParseJSON := true,
                      Content := "\x7b\"a\":1\x7d", JSONValues := some [] }

/-- The sample record with a content that starts with `é`, a character of two bytes. -/
def sampleAccent : SyslogMsg SampleTime SamplePri :=
  { sampleMsg with Content := "é test" }

/-- The sample record with a channel, which `json.Marshal` rejects, under the key `ch`. -/
def sampleChannel : SyslogMsg SampleTime SamplePri :=
  { sampleMsg with JSONValues := some [("ch", .other none)] }

/-- The sample record after `AddTagArray("tags", "trace")`. -/
def sampleTraced : SyslogMsg SampleTime SamplePri :=
  { sampleMsg with IsCee := true, Cee := " @cee:",
                   JSONValues := some [("msg", .str "test"), ("tags", .array [.str "trace"])] }

/-- A sample classifier: a text that decodes as a JSON object is handed back
with its map, any other text with the empty map and the decoder's error. -/
def sampleClassify : Classifier JSONError := fun c =>
  match decodeObject c with
  | .ok m => ({ Content := c, JSONValues := m }, none)
  | .error e => ({ Content := c, JSONValues := some [] }, some e)

/-- The sample record with a JSON body and a channel under the key `a`. -/
def sampleJSONChannel : SyslogMsg SampleTime SamplePri :=
  { sampleJSON with JSONValues := some [("a", .other none)] }

/-- A sample priority decoding: the two priorities of `syslogmsg_test.go`,
`<4>` (kern, warning) and `<174>` (local5, info). -/
def samplePriority (text : String) : Option SamplePri :=
  if text = "4" then some { code := "4", facility := "kern", severity := "warning" }
  else if text = "174" then some { code := "174", facility := "local5", severity := "info" }
  else none

/-- A sample timestamp detection, for the stamps of `syslogmsg_test.go`: the
text up to the next space, when it has the 32 characters of the layout
`2006-01-02T15:04:05.999999-07:00` and the offset `+00:00`. -/
def sampleTimestamp (cs : List Char) : Option (SampleTime × String × List Char) :=
  let stamp := cs.takeWhile (fun c => c ≠ ' ')
  if stamp.length = 32 ∧ stamp.drop 26 = "+00:00".data then
    some ({ text := String.mk stamp,
            json := some (String.mk ('"' :: (stamp.take 26 ++ ['Z', '"']))) },
          "2006-01-02T15:04:05.999999-07:00", cs.dropWhile (fun c => c ≠ ' '))
  else none

/-- A sample verdict of the content classifier: a body is plain when, after
its leading spaces, it starts neither with a brace nor with the marker `@cee:`. -/
def samplePlainBody (body : String) : Bool :=
  match body.data.dropWhile (fun c => c = ' ') with
  | '{' :: _ => false
  | '@' :: 'c' :: 'e' :: 'e' :: ':' :: _ => false
  | _ => true

/-- The sample collaborators of the line parser. -/
def sampleGrammar : LineGrammar SampleTime SamplePri :=
  { priority := samplePriority, timestamp := sampleTimestamp, plainBody := samplePlainBody }

/-- The record of the line of `TestNginxToSyslogMsgBackToString`. -/
def sampleNginx : SyslogMsg SampleTime SamplePri :=
  { Pri := { code := "174", facility := "local5", severity := "info" },
    Time := { text := "2017-04-12T13:31:11.918068+00:00",
              json := some "\"2017-04-12T13:31:11.918068Z\"" },
    Host := "www.example.com",
    Tag := { Program := "nginx", Pid := "", HasColon := false },
    Cee := "", IsJSON := false, IsCee := false, optionDontParseJSON := false,
    Content := " 192.168.1.1 - - [12/Apr/2017:13:31:11 +0000] \"GET /hello?from=world HTTP/1.1\" 200 18 \"https://something.example.com\" \"Mozilla/5.0 (Windows NT 10.0; Win64; x64) AppleWebKit/537.36 (KHTML, like Gecko) Chrome/57.0.2987.133 Safari/537.36\"",
    timeFormat := "2006-01-02T15:04:05.999999-07:00",
    JSONValues := some [] }

/-! ## Lemmas on maps -/

theorem Entries.get_assign_self (m : Entries) (k : String) (v : Value) :
    (m.assign k v).get k = some v := by
  simp [Entries.assign, Entries.get]

theorem find_filter_ne (m : Entries) (k k' : String) (h : k' ≠ k) :
    (m.filter (fun e => e.1 ≠ k)).find? (fun e => e.1 = k') = m.find? (fun e => e.1 = k') := by
  induction m with
  | nil => rfl
  | cons e m ih =>
    rw [List.filter_cons]
    by_cases he : e.1 = k
    · have h1 : decide (e.1 ≠ k) = false := by simp [he]
      have h2 : decide (e.1 = k') = false := by
        simp only [decide_eq_false_iff_not]
        exact fun e' => h (e'.symm.trans he)
      rw [h1, List.find?_cons, h2]
      simpa using ih
    · have h1 : decide (e.1 ≠ k) = true := by simp [he]
      rw [h1, if_pos rfl, List.find?_cons, List.find?_cons, ih]

theorem Entries.get_assign_ne (m : Entries) (k k' : String) (v : Value) (h : k' ≠ k) :
    (m.assign k v).get k' = m.get k' := by
  have hk : decide (k = k') = false := by
    simp only [decide_eq_false_iff_not]
    exact fun e => h e.symm
  unfold Entries.assign Entries.get
  rw [List.find?_cons]
  simp only [hk]
  rw [find_filter_ne m k k' h]

theorem Entries.assign_assign (m : Entries) (k : String) (v : Value) :
    (m.assign k v).assign k v = m.assign k v := by
  simp [Entries.assign, List.filter_cons, List.filter_filter]

theorem GoMap.len_pos_iff (m : GoMap) : 0 < m.len ↔ ∃ e es, m = some (e :: es) := by
  cases m with
  | none => simp [GoMap.len]
  | some l =>
    cases l with
    | nil => simp [GoMap.len]
    | cons e es => simp [GoMap.len]

theorem GoMap.len_zero_iff (m : GoMap) : m.len = 0 ↔ m = none ∨ m = some [] := by
  cases m with
  | none => simp [GoMap.len]
  | some l =>
    cases l with
    | nil => simp [GoMap.len]
    | cons e es => simp [GoMap.len]

/-! ## `String` -/

/-- The branch of `String` for an empty map outside the JSON branch. -/
theorem string_plain_branch {T P : Type} (ext : Extern T P) (s : SyslogMsg T P)
    (hempty : s.JSONValues.len = 0)
    (hmode : s.IsJSON = false ∨ s.optionDontParseJSON = true) :
    s.String ext = (s, some (s.line ext s.Content)) := by
  have hb : (s.IsJSON && !s.optionDontParseJSON) = false := by
    rcases hmode with h | h <;> simp [h]
  simp [SyslogMsg.String, hb, hempty]

/-- The JSON branch of `String`. -/
theorem string_json_branch {T P : Type} (ext : Extern T P) (s : SyslogMsg T P)
    (hjson : s.IsJSON = true) (hparse : s.optionDontParseJSON = false) :
    s.String ext = (s, (marshal s.JSONValues).map (s.line ext)) := by
  unfold SyslogMsg.String
  simp only [hjson, hparse, Bool.not_false, Bool.and_self, if_true]
  cases marshal s.JSONValues with
  | none => rfl
  | some b => rfl

/-- The two cases of the first test of `String`. -/
theorem string_mode_cases {T P : Type} (s : SyslogMsg T P) :
    (s.IsJSON = true ∧ s.optionDontParseJSON = false)
    ∨ (s.IsJSON = false ∨ s.optionDontParseJSON = true) := by
  cases s.IsJSON <;> cases s.optionDontParseJSON <;> simp

/-- C1: for a record whose `JSONValues` is empty and for which `IsJSON` is
false or `optionDontParseJSON` is set, `String` returns exactly
`"<" + priority + ">" + formatted time + " " + Host + " " + Tag.String() + Cee + Content + "\n"`
and leaves the record as it was. -/
theorem string_plain {T P : Type} (ext : Extern T P) (s : SyslogMsg T P)
    (hempty : s.JSONValues.len = 0)
    (hmode : s.IsJSON = false ∨ s.optionDontParseJSON = true) :
    s.String ext =
      (s, some ("<" ++ ext.priString s.Pri ++ ">" ++ ext.format s.Time s.timeFormat ++ " "
        ++ s.Host ++ " " ++ s.Tag.String ++ s.Cee ++ s.Content ++ "\n")) := by
  have hb : (s.IsJSON && !s.optionDontParseJSON) = false := by
    rcases hmode with h | h <;> simp [h]
  simp [SyslogMsg.String, hb, hempty, SyslogMsg.line]

/-- C1 at the record of `TestSyslogMsgToStringWithPid`: the line of the test comes back. -/
theorem string_plain_witness :
    sampleMsg.JSONValues.len = 0 ∧
    sampleMsg.String sampleExt =
      (sampleMsg, some ("<" ++ "4" ++ ">" ++ "2016-03-08T14:59:36.293816+00:00" ++ " "
        ++ "host.example.com" ++ " " ++ "kernel[12]:" ++ "" ++ " test" ++ "\n")) :=
  ⟨rfl, string_plain sampleExt sampleMsg rfl (Or.inl rfl)⟩

/-- The record `String` leaves on its promotion path, for a map with entries `m`. -/
theorem string_promote_eq {T P : Type} (ext : Extern T P) (s : SyslogMsg T P) (m : Entries)
    (hm : s.JSONValues = some m) (hne : 0 < s.JSONValues.len)
    (hmode : s.IsJSON = false ∨ s.optionDontParseJSON = true) :
    s.String ext =
      ({ s with JSONValues := some (m.assign "msg" (.str (trimLeftSpaces s.Content))),
                IsCee := true, Cee := " @cee:" },
       (marshal (some (m.assign "msg" (.str (trimLeftSpaces s.Content))))).map
         (fun body => "<" ++ ext.priString s.Pri ++ ">" ++ ext.format s.Time s.timeFormat ++ " "
            ++ s.Host ++ " " ++ s.Tag.String ++ " @cee:" ++ body ++ "\n")) := by
  have hb : (s.IsJSON && !s.optionDontParseJSON) = false := by
    rcases hmode with h | h <;> simp [h]
  have hlen : 0 < m.length := by simpa [hm, GoMap.len] using hne
  unfold SyslogMsg.String
  rw [hb, hm]
  simp only [Bool.false_eq_true, if_false, GoMap.len, hlen, if_true, GoMap.set]
  cases hmar : marshal (some (m.assign "msg" (.str (trimLeftSpaces s.Content)))) with
  | none => simp
  | some b => simp [SyslogMsg.line]

theorem insertMember_perm (a : String × String) (l : List (String × String)) :
    (insertMember a l).Perm (a :: l) := by
  induction l with
  | nil => exact List.Perm.refl _
  | cons b bs ih =>
    unfold insertMember
    split
    · exact (List.Perm.cons b ih).trans (List.Perm.swap a b bs)
    · exact List.Perm.refl _

theorem sortMembers_perm (l : List (String × String)) : (sortMembers l).Perm l := by
  induction l with
  | nil => exact List.Perm.refl _
  | cons a as ih =>
    unfold sortMembers
    exact (insertMember_perm a _).trans (List.Perm.cons a ih)

theorem encodeMembers_keys (kvs : List (String × Value)) (ms : List (String × String))
    (h : encodeMembers kvs = some ms) : ms.map Prod.fst = kvs.map Prod.fst := by
  induction kvs generalizing ms with
  | nil =>
    simp only [encodeMembers, Option.some.injEq] at h
    subst h
    rfl
  | cons kv kvs ih =>
    obtain ⟨k, v⟩ := kv
    unfold encodeMembers at h
    cases hv : encodeValue v with
    | none => simp [hv] at h
    | some e =>
      cases hr : encodeMembers kvs with
      | none => simp [hv, hr] at h
      | some es =>
        simp only [hv, hr, Option.some.injEq] at h
        subst h
        simp [ih es hr]

theorem joinComma_contains (l : List String) (a : String) (h : a ∈ l) :
    List.IsInfix a.data (joinComma l).data := by
  induction l with
  | nil => cases h
  | cons b bs ih =>
    cases bs with
    | nil =>
      have hab : a = b := by simpa using h
      subst hab
      exact List.infix_refl _
    | cons c cs =>
      unfold joinComma
      rcases List.mem_cons.1 h with hab | hmem
      · subst hab
        refine ⟨[], (",".data ++ (joinComma (c :: cs)).data), ?_⟩
        simp [String.data_append]
      · obtain ⟨p, q, hpq⟩ := ih hmem
        refine ⟨b.data ++ ",".data ++ p, q, ?_⟩
        simp [String.data_append, ← hpq]

theorem Entries.mem_keys_of_get (m : Entries) (k : String) (h : (m.get k).isSome) :
    k ∈ m.map Prod.fst := by
  unfold Entries.get at h
  cases hf : m.find? (fun e => e.1 = k) with
  | none => simp [hf] at h
  | some e =>
    have hmem : e ∈ m := List.mem_of_find?_eq_some hf
    have hp := List.find?_some hf
    have hk : e.1 = k := by simpa using hp
    exact List.mem_map.2 ⟨e, hmem, hk⟩

/-- The encoding of a map shows each of its keys, as the text `"key":`. -/
theorem marshal_contains_key (m : Entries) (k : String) (body : String)
    (hk : (m.get k).isSome) (hb : marshal (some m) = some body) :
    List.IsInfix (encodeString k ++ ":").data body.data := by
  simp only [marshal, encodeValue, Option.map_eq_some'] at hb
  obtain ⟨ms, hms, hbody⟩ := hb
  have hkeys := encodeMembers_keys m ms hms
  have hkm : k ∈ ms.map Prod.fst := by
    rw [hkeys]
    exact Entries.mem_keys_of_get m k hk
  obtain ⟨a, ha, hak⟩ := List.mem_map.1 hkm
  have hsorted : a ∈ sortMembers ms := (sortMembers_perm ms).symm.subset ha
  have htext : memberText a ∈ (sortMembers ms).map memberText := List.mem_map.2 ⟨a, hsorted, rfl⟩
  have hjoin := joinComma_contains _ _ htext
  have hpre : List.IsInfix (encodeString k ++ ":").data (memberText a).data := by
    refine ⟨[], a.2.data, ?_⟩
    simp [memberText, String.data_append, hak]
  have hobj : List.IsInfix (joinComma ((sortMembers ms).map memberText)).data body.data := by
    refine ⟨"\x7b".data, "\x7d".data, ?_⟩
    simp [← hbody, objectText, String.data_append]
  exact (hpre.trans hjoin).trans hobj

/-- C2: for a record whose `JSONValues` is not empty and for which `IsJSON` is
false or `optionDontParseJSON` is set, `String` promotes the record: afterwards
`IsCee` is true, `Cee` is `" @cee:"`, `JSONValues["msg"]` is `Content` without its
leading spaces and every other key is as before; the other fields are
untouched; the call returns the header, `" @cee:"`, the JSON encoding of the
updated `JSONValues` and a newline (it panics exactly when that encoding does
not exist); and the returned line shows every key of the updated map,
`"msg"` among them, as `"key":`. -/
theorem string_promotes {T P : Type} (ext : Extern T P) (s : SyslogMsg T P)
    (hne : 0 < s.JSONValues.len)
    (hmode : s.IsJSON = false ∨ s.optionDontParseJSON = true) :
    ((s.String ext).1.IsCee = true ∧ (s.String ext).1.Cee = " @cee:"
      ∧ (s.String ext).1.JSONValues.get "msg" = some (.str (trimLeftSpaces s.Content))
      ∧ ∀ k, k ≠ "msg" → (s.String ext).1.JSONValues.get k = s.JSONValues.get k)
    ∧ ((s.String ext).1.Pri = s.Pri ∧ (s.String ext).1.Time = s.Time
      ∧ (s.String ext).1.Host = s.Host ∧ (s.String ext).1.Tag = s.Tag
      ∧ (s.String ext).1.IsJSON = s.IsJSON
      ∧ (s.String ext).1.optionDontParseJSON = s.optionDontParseJSON
      ∧ (s.String ext).1.Content = s.Content ∧ (s.String ext).1.timeFormat = s.timeFormat)
    ∧ (s.String ext).2 = (marshal (s.String ext).1.JSONValues).map
        (fun body => "<" ++ ext.priString s.Pri ++ ">" ++ ext.format s.Time s.timeFormat ++ " "
          ++ s.Host ++ " " ++ s.Tag.String ++ " @cee:" ++ body ++ "\n")
    ∧ ∀ k line, ((s.String ext).1.JSONValues.get k).isSome → (s.String ext).2 = some line →
        List.IsInfix (encodeString k ++ ":").data line.data := by
  obtain ⟨e, es, hm⟩ := (GoMap.len_pos_iff _).1 hne
  rw [string_promote_eq ext s (e :: es) hm hne hmode]
  refine ⟨⟨rfl, rfl, ?_, ?_⟩, ⟨rfl, rfl, rfl, rfl, rfl, rfl, rfl, rfl⟩, rfl, ?_⟩
  · exact Entries.get_assign_self _ _ _
  · intro k hk
    rw [hm]
    exact Entries.get_assign_ne _ _ _ _ hk
  · intro k line hk hline
    simp only [GoMap.get] at hk
    simp only [Option.map_eq_some'] at hline
    obtain ⟨body, hbody, hl⟩ := hline
    have hin := marshal_contains_key _ k body hk hbody
    refine hin.trans ⟨("<" ++ ext.priString s.Pri ++ ">" ++ ext.format s.Time s.timeFormat ++ " "
          ++ s.Host ++ " " ++ s.Tag.String ++ " @cee:").data, "\n".data, ?_⟩
    simp [← hl, String.data_append]

/-- C2 at the record of `TestSyslogMsgPlainWithAddedKeys`: the line carries
`tags` and `msg`, and the record is in CEE mode afterwards. -/
theorem string_promotes_witness :
    (sampleTagged.String sampleExt).2 =
      some ("<4>2016-03-08T14:59:36.293816+00:00 host.example.com kernel[12]: @cee:"
        ++ "\x7b\"msg\":\"test\",\"tags\":[\"trace\"]\x7d" ++ "\n")
    ∧ (sampleTagged.String sampleExt).1.IsCee = true
    ∧ (sampleTagged.String sampleExt).1.JSONValues.get "msg" = some (.str "test") :=
  ⟨rfl, (string_promotes sampleExt sampleTagged (by decide) (Or.inl rfl)).1.1,
    (string_promotes sampleExt sampleTagged (by decide) (Or.inl rfl)).1.2.2.1⟩

/-- C3: for a record with `IsJSON` true and `optionDontParseJSON` false,
`String` returns the header, whatever marker `Cee` holds, the JSON encoding of
`JSONValues` as it stands and a newline (it panics exactly when that encoding
does not exist), and the record is left as it was: no `"msg"` key is added,
`IsCee` and `Cee` keep their values. -/
theorem string_json_body {T P : Type} (ext : Extern T P) (s : SyslogMsg T P)
    (hjson : s.IsJSON = true) (hparse : s.optionDontParseJSON = false) :
    s.String ext =
      (s, (marshal s.JSONValues).map
        (fun body => "<" ++ ext.priString s.Pri ++ ">" ++ ext.format s.Time s.timeFormat ++ " "
          ++ s.Host ++ " " ++ s.Tag.String ++ s.Cee ++ body ++ "\n")) := by
  unfold SyslogMsg.String
  simp only [hjson, hparse, Bool.not_false, Bool.and_self, if_true]
  cases marshal s.JSONValues with
  | none => rfl
  | some b => rfl

/-- C3 at a record with the JSON body `{"a":"b"}`. -/
theorem string_json_body_witness :
    sampleJSON.String sampleExt =
      (sampleJSON, some ("<4>2016-03-08T14:59:36.293816+00:00 host.example.com kernel[12]:"
        ++ "\x7b\"a\":\"b\"\x7d" ++ "\n")) :=
  (string_json_body sampleExt sampleJSON rfl rfl).trans rfl

/-- C4: `String` is idempotent. Called a second time on the record the first
call left, it returns what the first call returned and leaves that record as
it is (whether or not the first call succeeded). -/
theorem string_idempotent {T P : Type} (ext : Extern T P) (s : SyslogMsg T P) :
    (s.String ext).1.String ext = ((s.String ext).1, (s.String ext).2) := by
  rcases string_mode_cases s with ⟨hj, hp⟩ | hmode
  · rw [string_json_branch ext s hj hp]
    exact string_json_branch ext s hj hp
  · by_cases hlen : 0 < s.JSONValues.len
    · obtain ⟨e, es, hm⟩ := (GoMap.len_pos_iff _).1 hlen
      rw [string_promote_eq ext s (e :: es) hm hlen hmode]
      have h2 := string_promote_eq ext
        ({ s with JSONValues := some (Entries.assign "msg" (.str (trimLeftSpaces s.Content))
                    (e :: es)),
                  IsCee := true, Cee := " @cee:" })
        (Entries.assign "msg" (.str (trimLeftSpaces s.Content)) (e :: es)) rfl
        (by simp [GoMap.len, Entries.assign]) hmode
      refine h2.trans ?_
      simp only [Entries.assign_assign]
    · have h0 : s.JSONValues.len = 0 := Nat.eq_zero_of_not_pos hlen
      rw [string_plain_branch ext s h0 hmode]
      exact string_plain_branch ext s h0 hmode

/-- Every line `String` returns is the header, a marker and body, and one newline. -/
theorem string_shape {T P : Type} (ext : Extern T P) (s : SyslogMsg T P) (line : String)
    (h : (s.String ext).2 = some line) :
    ∃ body, line = "<" ++ ext.priString s.Pri ++ ">" ++ ext.format s.Time s.timeFormat ++ " "
      ++ s.Host ++ " " ++ s.Tag.String ++ body ++ "\n" := by
  rcases string_mode_cases s with ⟨hj, hp⟩ | hmode
  · rw [string_json_branch ext s hj hp] at h
    simp only [Option.map_eq_some'] at h
    obtain ⟨b, _, hl⟩ := h
    exact ⟨s.Cee ++ b, by simp [← hl, SyslogMsg.line, String.append_assoc]⟩
  · by_cases hlen : 0 < s.JSONValues.len
    · obtain ⟨e, es, hm⟩ := (GoMap.len_pos_iff _).1 hlen
      rw [string_promote_eq ext s (e :: es) hm hlen hmode] at h
      simp only [Option.map_eq_some'] at h
      obtain ⟨b, _, hl⟩ := h
      exact ⟨" @cee:" ++ b, by simp [← hl, String.append_assoc]⟩
    · have h0 : s.JSONValues.len = 0 := Nat.eq_zero_of_not_pos hlen
      rw [string_plain_branch ext s h0 hmode] at h
      simp only [Option.some.injEq] at h
      exact ⟨s.Cee ++ s.Content, by simp [← h, SyslogMsg.line, String.append_assoc]⟩

/-- Every line `String` returns ends with a newline. -/
theorem string_last_char {T P : Type} (ext : Extern T P) (s : SyslogMsg T P) (line : String)
    (h : (s.String ext).2 = some line) : line.data.getLast? = some '\n' := by
  obtain ⟨body, hl⟩ := string_shape ext s line h
  rw [hl, String.data_append]
  exact List.getLast?_append_of_ne_nil _ (by decide)

/-! ## The round trip through the line parser -/

theorem expect_eq (c : Char) (cs r : List Char) (h : expect c cs = some r) : cs = c :: r := by
  cases cs with
  | nil => cases h
  | cons d rest =>
    by_cases hd : d = c
    · have h2 : expect c (d :: rest) = some rest := by simp [expect, hd]
      rw [h2] at h
      rw [hd, Option.some.inj h]
    · have h2 : expect c (d :: rest) = none := by simp [expect, hd]
      rw [h2] at h
      cases h

theorem withoutNewline_append (cs : List Char) (h : cs.getLast? = some '\n') :
    withoutNewline cs ++ ['\n'] = cs := by
  unfold withoutNewline
  rw [if_pos h]
  exact List.dropLast_append_getLast? _ (by simp [h])

theorem withoutNewline_of_ne (cs : List Char) (h : cs.getLast? ≠ some '\n') :
    withoutNewline cs = cs := by
  unfold withoutNewline
  rw [if_neg h]

theorem tag_string_pid (program pid : List Char) (colon : Bool) (hpid : pid ≠ []) :
    (Tag.String { Program := String.mk program, Pid := String.mk pid, HasColon := colon }).data
      = program ++ '[' :: (pid ++ ']' :: (if colon then [':'] else [])) := by
  have hlen : ¬ (String.mk pid).length = 0 := fun h0 => hpid (List.length_eq_zero.1 h0)
  unfold Tag.String
  simp only [hlen, if_false]
  cases colon <;> simp [String.data_append]

theorem tag_string_nopid (program : List Char) (colon : Bool) :
    (Tag.String { Program := String.mk program, Pid := "", HasColon := colon }).data
      = program ++ (if colon then [':'] else []) := by
  unfold Tag.String
  cases colon <;> simp [String.data_append]

/-- The tag the parser reads is rendered by `Tag.String` as the text it was read from. -/
theorem parseTag_text (cs : List Char) (tag : Tag) (rest : List Char)
    (h : parseTag cs = some (tag, rest)) : tag.String.data ++ rest = cs := by
  have hsplit := List.takeWhile_append_dropWhile (fun c => decide (c ≠ ' ' ∧ c ≠ '[' ∧ c ≠ ':')) cs
  unfold parseTag at h
  simp only at h
  generalize List.takeWhile (fun c => decide (c ≠ ' ' ∧ c ≠ '[' ∧ c ≠ ':')) cs = program at h hsplit
  split at h
  · rename_i r1 hdrop
    rw [hdrop] at hsplit
    have hsplit1 := List.takeWhile_append_dropWhile (fun c => decide (c ≠ ']')) r1
    generalize List.takeWhile (fun c => decide (c ≠ ']')) r1 = pid at h hsplit1
    split at h
    · rename_i r2 hdrop1
      rw [hdrop1] at hsplit1
      split at h
      · cases h
      · rename_i hpid
        split at h
        · simp only [Option.some.injEq, Prod.mk.injEq] at h
          obtain ⟨ht, hr⟩ := h
          subst ht hr
          rw [tag_string_pid program pid true hpid, ← hsplit, ← hsplit1]
          simp
        · simp only [Option.some.injEq, Prod.mk.injEq] at h
          obtain ⟨ht, hr⟩ := h
          subst ht hr
          rw [tag_string_pid program pid false hpid, ← hsplit, ← hsplit1]
          simp
    · cases h
  · rename_i r1 hdrop
    rw [hdrop] at hsplit
    simp only [Option.some.injEq, Prod.mk.injEq] at h
    obtain ⟨ht, hr⟩ := h
    subst ht hr
    rw [tag_string_nopid program true, ← hsplit]
    simp
  · simp only [Option.some.injEq, Prod.mk.injEq] at h
    obtain ⟨ht, hr⟩ := h
    subst ht hr
    rw [tag_string_nopid program false]
    simpa using hsplit

/-- What the line parser read: the record is a plain one, and the line,
without its newline, is made of the tokens that became the fields. -/
theorem parseBytes_tokens {T P : Type} (g : LineGrammar T P) (b : String) (s : SyslogMsg T P)
    (h : ParseBytes g b = some s) :
    (s.IsJSON = false ∧ s.IsCee = false ∧ s.Cee = "" ∧ s.JSONValues = some [])
    ∧ ∃ pri r1 r2, g.priority (String.mk pri) = some s.Pri
        ∧ g.timestamp r1 = some (s.Time, s.timeFormat, r2)
        ∧ withoutNewline b.data = '<' :: (pri ++ '>' :: r1)
        ∧ r2 = ' ' :: (s.Host.data ++ ' ' :: (s.Tag.String.data ++ s.Content.data)) := by
  unfold ParseBytes at h
  split at h
  · cases h
  · rename_i r0 h0
    have e0 := expect_eq _ _ _ h0
    have hsplit := List.takeWhile_append_dropWhile (fun c => decide (c ≠ '>')) r0
    generalize List.takeWhile (fun c => decide (c ≠ '>')) r0 = pri at h hsplit
    split at h
    · rename_i p r1 hp h1
      have e1 := expect_eq _ _ _ h1
      split at h
      · cases h
      · rename_i t layout r2 ht
        split at h
        · cases h
        · rename_i r3 h3
          have e3 := expect_eq _ _ _ h3
          have hsplit3 := List.takeWhile_append_dropWhile (fun c => decide (c ≠ ' ')) r3
          generalize List.takeWhile (fun c => decide (c ≠ ' ')) r3 = host at h hsplit3
          split at h
          · cases h
          · rename_i r4 h4
            have e4 := expect_eq _ _ _ h4
            split at h
            · cases h
            · rename_i tag body htag
              have etag := parseTag_text _ _ _ htag
              split at h
              · simp only [Option.some.injEq] at h
                subst h
                refine ⟨⟨rfl, rfl, rfl, rfl⟩, pri, r1, r2, hp, ht, ?_, ?_⟩
                · rw [e0, ← hsplit, e1]
                · show r2 = ' ' :: (host ++ ' ' :: (tag.String.data ++ body))
                  rw [e3, ← hsplit3, e4, etag]
              · cases h
    · cases h

/-- The sample priority is rendered as the text it was decoded from. -/
theorem samplePriority_text (text : String) (p : SamplePri)
    (h : sampleGrammar.priority text = some p) : sampleExt.priString p = text := by
  simp only [sampleGrammar, samplePriority] at h
  split at h
  · rename_i ht
    simp only [Option.some.injEq] at h
    subst h
    exact ht.symm
  · split at h
    · rename_i ht
      simp only [Option.some.injEq] at h
      subst h
      exact ht.symm
    · cases h

/-- The sample time is rendered as the text it was detected in. -/
theorem sampleTimestamp_text (cs : List Char) (t : SampleTime) (layout : String)
    (rest : List Char) (h : sampleGrammar.timestamp cs = some (t, layout, rest)) :
    (sampleExt.format t layout).data ++ rest = cs := by
  simp only [sampleGrammar, sampleTimestamp] at h
  split at h
  · simp only [Option.some.injEq, Prod.mk.injEq] at h
    obtain ⟨ht, _, hr⟩ := h
    subst ht hr
    exact List.takeWhile_append_dropWhile _ cs
  · cases h

/-- The line `String` writes for a record the line parser made is the line
that was read, without its newline, and one newline. -/
theorem parsed_line_text {T P : Type} (ext : Extern T P) (g : LineGrammar T P) (b : String)
    (s : SyslogMsg T P)
    (hpri : ∀ text p, g.priority text = some p → ext.priString p = text)
    (htime : ∀ cs t layout rest, g.timestamp cs = some (t, layout, rest) →
      (ext.format t layout).data ++ rest = cs)
    (h : ParseBytes g b = some s) :
    s.line ext s.Content = String.mk (withoutNewline b.data) ++ "\n" := by
  obtain ⟨⟨_, _, hcee, _⟩, pri, r1, r2, hp, ht, hline, hr2⟩ := parseBytes_tokens g b s h
  have e1 := hpri _ _ hp
  have e2 := htime _ _ _ _ ht
  apply String.ext
  rw [String.data_append, hline, ← e2, hr2]
  simp [SyslogMsg.line, String.data_append, e1, hcee]

/-- C5, as the code has it: for every plain line that the line parser
accepts, `String` on the record built by `NewSyslogMsgFromBytes` returns the
original bytes up to the final newline: the line without the newline it may
end with, followed by one newline, and the record is left as it was. So the
bytes come back exactly when the line ends with a newline, and with a newline
appended when it does not. The collaborators of the parser are taken with
their contracts: the priority is rendered as the text it was decoded from,
and the time is rendered in its layout as the text it was detected in. -/
theorem string_round_trip {T P : Type} (ext : Extern T P) (g : LineGrammar T P) (line : String)
    (s : SyslogMsg T P)
    (hpri : ∀ text p, g.priority text = some p → ext.priString p = text)
    (htime : ∀ cs t layout rest, g.timestamp cs = some (t, layout, rest) →
      (ext.format t layout).data ++ rest = cs)
    (hparse : NewSyslogMsgFromBytes g line = some s) :
    (s.IsJSON = false ∧ s.IsCee = false ∧ s.JSONValues.len = 0)
    ∧ s.String ext = (s, some (String.mk (withoutNewline line.data) ++ "\n"))
    ∧ (line.data.getLast? = some '\n' → (s.String ext).2 = some line)
    ∧ (line.data.getLast? ≠ some '\n' →
        (s.String ext).2 = some (line ++ "\n") ∧ (s.String ext).2 ≠ some line) := by
  obtain ⟨⟨hjson, hcee, _, hmap⟩, _⟩ := parseBytes_tokens g line s hparse
  have hlen : s.JSONValues.len = 0 := by rw [hmap]; rfl
  have hstr : s.String ext = (s, some (String.mk (withoutNewline line.data) ++ "\n")) := by
    rw [string_plain_branch ext s hlen (Or.inl hjson),
      parsed_line_text ext g line s hpri htime hparse]
  refine ⟨⟨hjson, hcee, hlen⟩, hstr, ?_, ?_⟩
  · intro hlast
    rw [hstr]
    have e : String.mk (withoutNewline line.data) ++ "\n" = line := by
      apply String.ext
      rw [String.data_append]
      exact withoutNewline_append _ hlast
    rw [e]
  · intro hlast
    rw [hstr, withoutNewline_of_ne _ hlast]
    refine ⟨rfl, ?_⟩
    intro heq
    have e : (String.mk line.data ++ "\n").data = line.data := by
      rw [Option.some.inj heq]
    rw [String.data_append] at e
    have hl := congrArg List.length e
    simp at hl

/-- C5 at the line of `TestSyslogMsgToStringWithPid`, which ends with a
newline: the parser makes the sample record of it, and `String` returns the
line as it was. -/
theorem string_round_trip_witness :
    NewSyslogMsgFromBytes sampleGrammar
        "<4>2016-03-08T14:59:36.293816+00:00 host.example.com kernel[12]: test\n"
      = some sampleMsg
    ∧ (sampleMsg.String sampleExt).2
      = some "<4>2016-03-08T14:59:36.293816+00:00 host.example.com kernel[12]: test\n" :=
  ⟨rfl,
    (string_round_trip sampleExt sampleGrammar
      "<4>2016-03-08T14:59:36.293816+00:00 host.example.com kernel[12]: test\n" sampleMsg
      samplePriority_text sampleTimestamp_text rfl).2.2.1 rfl⟩

set_option maxRecDepth 20000 in
/-- C5 fails as stated: the line of `TestNginxToSyslogMsgBackToString` is a
plain line without a newline at its end; the parser accepts it, and `String`
on its record returns the line with a newline appended, as that test wants,
and not the original bytes. No record at all is rendered as that line. -/
theorem string_round_trip_counterexample :
    NewSyslogMsgFromBytes sampleGrammar nginxLine = some sampleNginx
    ∧ (sampleNginx.IsJSON = false ∧ sampleNginx.IsCee = false)
    ∧ (sampleNginx.String sampleExt).2 = some (nginxLine ++ "\n")
    ∧ (sampleNginx.String sampleExt).2 ≠ some nginxLine
    ∧ ¬ ∃ (T P : Type) (ext : Extern T P) (s : SyslogMsg T P),
        (s.String ext).2 = some nginxLine := by
  have hnone : ¬ ∃ (T P : Type) (ext : Extern T P) (s : SyslogMsg T P),
      (s.String ext).2 = some nginxLine := by
    rintro ⟨T, P, ext, s, hs⟩
    have h := string_last_char ext s nginxLine hs
    revert h
    decide
  exact ⟨rfl, ⟨rfl, rfl⟩, rfl, fun h => hnone ⟨_, _, sampleExt, sampleNginx, h⟩, hnone⟩

/-! ## `JSON` -/

/-- C6, as the code has it: for a record with `IsCee` false and an empty
`JSONValues`, the object `JSON` encodes has exactly the eight keys
`syslog_content` (`Content` as it is), `syslog_facilitytext`, `syslog_host`,
`syslog_pid`, `syslog_programname`, `syslog_severitytext`, `syslog_tag`
(`Tag.String()`) and `syslog_time`. Where the time has a JSON encoding, `JSON`
succeeds and writes the eight members in this, the lexicographic, order;
where it has none (`MarshalJSON` rejects a year outside 0..9999), `JSON`
returns the encoder's error and no bytes. -/
theorem json_plain {T P : Type} (ext : Extern T P) (s : SyslogMsg T P)
    (hcee : s.IsCee = false) (hempty : s.JSONValues.len = 0) :
    (∀ tj, ext.timeJSON s.Time = some tj →
      s.JSON ext = .ret ("\x7b" ++ joinComma
        [ "\"syslog_content\":" ++ encodeString s.Content,
          "\"syslog_facilitytext\":" ++ encodeString (ext.facilityString s.Pri),
          "\"syslog_host\":" ++ encodeString s.Host,
          "\"syslog_pid\":" ++ encodeString s.Tag.Pid,
          "\"syslog_programname\":" ++ encodeString s.Tag.Program,
          "\"syslog_severitytext\":" ++ encodeString (ext.severityString s.Pri),
          "\"syslog_tag\":" ++ encodeString s.Tag.String,
          "\"syslog_time\":" ++ tj ] ++ "\x7d") none)
    ∧ (ext.timeJSON s.Time = none → s.JSON ext = .ret "" (some .marshal))
    ∧ s.seed = .ok (some [])
    ∧ s.fill ext (some []) = some (some
        [ ("syslog_content", .str s.Content),
          ("syslog_severitytext", .str (ext.severityString s.Pri)),
          ("syslog_facilitytext", .str (ext.facilityString s.Pri)),
          ("syslog_pid", .str s.Tag.Pid),
          ("syslog_programname", .str s.Tag.Program),
          ("syslog_tag", .str s.Tag.String),
          ("syslog_host", .str s.Host),
          ("syslog_time", .other (ext.timeJSON s.Time)) ]) := by
  have hseed : s.seed = .ok (some []) := by
    unfold SyslogMsg.seed
    rw [hcee]
    simp
  have hcopy : copyInto s.JSONValues (some []) = some (some []) := by
    rcases (GoMap.len_zero_iff _).1 hempty with h | h <;> rw [h] <;> rfl
  have hfill : s.fill ext (some []) = some (some
        [ ("syslog_content", .str s.Content),
          ("syslog_severitytext", .str (ext.severityString s.Pri)),
          ("syslog_facilitytext", .str (ext.facilityString s.Pri)),
          ("syslog_pid", .str s.Tag.Pid),
          ("syslog_programname", .str s.Tag.Program),
          ("syslog_tag", .str s.Tag.String),
          ("syslog_host", .str s.Host),
          ("syslog_time", .other (ext.timeJSON s.Time)) ]) := by
    unfold SyslogMsg.fill SyslogMsg.stamp
    rw [hcopy, hcee]
    rfl
  refine ⟨?_, ?_, hseed, hfill⟩
  · intro tj htj
    unfold SyslogMsg.JSON
    rw [hseed]
    simp only [hfill, htj]
    rfl
  · intro htj
    unfold SyslogMsg.JSON
    rw [hseed]
    simp only [hfill, htj]
    rfl

/-- C6 at the record of `TestSyslogMsgJSONFromPlain` (tag `kernel:`): the bytes the test wants. -/
theorem json_plain_witness :
    sampleKernel.JSON sampleExt
      = .ret ("\x7b\"syslog_content\":\" test\",\"syslog_facilitytext\":\"kern\","
          ++ "\"syslog_host\":\"host.example.com\",\"syslog_pid\":\"\","
          ++ "\"syslog_programname\":\"kernel\",\"syslog_severitytext\":\"warning\","
          ++ "\"syslog_tag\":\"kernel:\",\"syslog_time\":\"2016-03-08T14:59:36.293816Z\"\x7d")
          none :=
  ((json_plain sampleExt sampleKernel rfl rfl).1 "\"2016-03-08T14:59:36.293816Z\"" rfl).trans rfl

/-- C6 fails as stated: the record of `TestSyslogMsgJSONFromPlain` after
`SetTime` with a time in the year 10000 has `IsCee` false and an empty
`JSONValues`; the time has no JSON encoding, and `JSON` returns the encoder's
error and no bytes. -/
theorem json_plain_counterexample :
    sampleFar.IsCee = false ∧ sampleFar.JSONValues.len = 0
    ∧ sampleFar = sampleKernel.SetTime sampleFarTime
    ∧ sampleExt.timeJSON sampleFar.Time = none
    ∧ sampleFar.JSON sampleExt = .ret "" (some .marshal) :=
  ⟨rfl, rfl, rfl, rfl, rfl⟩

theorem GoMap.get_of_set {m m' : GoMap} {k : String} {v : Value} (h : m.set k v = some m')
    (k' : String) : m'.get k' = if k' = k then some v else m.get k' := by
  cases m with
  | none => simp [GoMap.set] at h
  | some l =>
    simp only [GoMap.set, Option.some.injEq] at h
    subst h
    by_cases hk : k' = k
    · subst hk
      simp [GoMap.get, Entries.get_assign_self]
    · simp [GoMap.get, hk, Entries.get_assign_ne _ _ _ _ hk]

theorem Entries.get_cons (e : String × Value) (m : Entries) (k : String) :
    Entries.get (e :: m) k = if k = e.1 then some e.2 else Entries.get m k := by
  unfold Entries.get
  rw [List.find?_cons]
  by_cases hk : k = e.1
  · subst hk
    simp
  · have : decide (e.1 = k) = false := by
      simp only [decide_eq_false_iff_not]
      exact fun h => hk h.symm
    simp [this, hk]

/-- After the copying loop a key holds the value it has in the source, and
where the source has none the value it had in the destination. -/
theorem copyInto_get {src dst c : GoMap} (h : copyInto src dst = some c) (k : String) :
    c.get k = match src.get k with
      | some v => some v
      | none => dst.get k := by
  cases src with
  | none =>
    simp only [copyInto, Option.some.injEq] at h
    subst h
    rfl
  | some m =>
    induction m generalizing c with
    | nil =>
      simp only [copyInto, List.foldr_nil, Option.some.injEq] at h
      subst h
      rfl
    | cons e m ih =>
      simp only [copyInto, List.foldr_cons, Option.bind_eq_some] at h
      obtain ⟨d, hd, hset⟩ := h
      have hrec := ih (c := d) (by simpa [copyInto] using hd)
      rw [GoMap.get_of_set hset k]
      simp only [GoMap.get, Entries.get_cons] at hrec ⊢
      by_cases hk : k = e.1
      · simp [hk]
      · simp only [hk, if_false]
        exact hrec

/-- The value a key holds after `stamp`. -/
theorem stamp_get {T P : Type} (ext : Extern T P) (s : SyslogMsg T P) {c0 c : GoMap}
    (h : s.stamp ext c0 = some c) (k : String) :
    c.get k =
      if k = "syslog_content" ∧ s.IsCee = false then some (.str s.Content)
      else if k = "syslog_severitytext" then some (.str (ext.severityString s.Pri))
      else if k = "syslog_facilitytext" then some (.str (ext.facilityString s.Pri))
      else if k = "syslog_pid" then some (.str s.Tag.Pid)
      else if k = "syslog_programname" then some (.str s.Tag.Program)
      else if k = "syslog_tag" then some (.str s.Tag.String)
      else if k = "syslog_host" then some (.str s.Host)
      else if k = "syslog_time" then some (.other (ext.timeJSON s.Time))
      else c0.get k := by
  simp only [SyslogMsg.stamp, Option.bind_eq_bind, Option.bind_eq_some] at h
  obtain ⟨c1, h1, c2, h2, c3, h3, c4, h4, c5, h5, c6, h6, c7, h7, h8⟩ := h
  have g1 := GoMap.get_of_set h1 k
  have g2 := GoMap.get_of_set h2 k
  have g3 := GoMap.get_of_set h3 k
  have g4 := GoMap.get_of_set h4 k
  have g5 := GoMap.get_of_set h5 k
  have g6 := GoMap.get_of_set h6 k
  have g7 := GoMap.get_of_set h7 k
  cases hcee : s.IsCee with
  | true =>
    simp only [hcee, Bool.not_true, Bool.false_eq_true, if_false, Option.some.injEq] at h8
    subst h8
    simp only [Bool.true_eq_false, and_false, if_false]
    rw [g7, g6, g5, g4, g3, g2, g1]
  | false =>
    simp only [hcee, Bool.not_false, if_true] at h8
    have g8 := GoMap.get_of_set h8 k
    simp only [and_true]
    rw [g8, g7, g6, g5, g4, g3, g2, g1]

/-- The value a key holds in the map `JSON` encodes. -/
theorem fill_get {T P : Type} (ext : Extern T P) (s : SyslogMsg T P) {c0 c : GoMap}
    (h : s.fill ext c0 = some c) (k : String) :
    c.get k =
      if k = "syslog_content" ∧ s.IsCee = false then some (.str s.Content)
      else if k = "syslog_severitytext" then some (.str (ext.severityString s.Pri))
      else if k = "syslog_facilitytext" then some (.str (ext.facilityString s.Pri))
      else if k = "syslog_pid" then some (.str s.Tag.Pid)
      else if k = "syslog_programname" then some (.str s.Tag.Program)
      else if k = "syslog_tag" then some (.str s.Tag.String)
      else if k = "syslog_host" then some (.str s.Host)
      else if k = "syslog_time" then some (.other (ext.timeJSON s.Time))
      else match s.JSONValues.get k with
        | some v => some v
        | none => c0.get k := by
  simp only [SyslogMsg.fill, Option.bind_eq_some] at h
  obtain ⟨d, hd, hst⟩ := h
  rw [stamp_get ext s hst k, copyInto_get hd k]

/-- What `JSON` returns once its map `content` is complete. -/
theorem json_of_fill {T P : Type} (ext : Extern T P) (s : SyslogMsg T P) {c0 c : GoMap}
    (hseed : s.seed = .ok c0) (hfill : s.fill ext c0 = some c) :
    s.JSON ext = match marshal c with
      | some b => .ret b none
      | none => .ret "" (some .marshal) := by
  unfold SyslogMsg.JSON
  rw [hseed]
  simp only [hfill]

/-- C7, as the code has it: in the object `JSON` encodes, each of the seven
keys `syslog_time`, `syslog_host`, `syslog_tag`, `syslog_programname`,
`syslog_pid`, `syslog_facilitytext`, `syslog_severitytext` holds the value
taken from the record's own fields, whatever `JSONValues` holds under that
name; and every other key of `JSONValues` is exported with its value, except
the key `syslog_content` of a record with `IsCee` false, which `JSON` sets to
`Content`. -/
theorem json_reserved_keys {T P : Type} (ext : Extern T P) (s : SyslogMsg T P) (c0 c : GoMap)
    (hseed : s.seed = .ok c0) (hfill : s.fill ext c0 = some c) :
    (c.get "syslog_time" = some (.other (ext.timeJSON s.Time))
      ∧ c.get "syslog_host" = some (.str s.Host)
      ∧ c.get "syslog_tag" = some (.str s.Tag.String)
      ∧ c.get "syslog_programname" = some (.str s.Tag.Program)
      ∧ c.get "syslog_pid" = some (.str s.Tag.Pid)
      ∧ c.get "syslog_facilitytext" = some (.str (ext.facilityString s.Pri))
      ∧ c.get "syslog_severitytext" = some (.str (ext.severityString s.Pri)))
    ∧ (∀ k v, k ∉ reservedKeys → (k = "syslog_content" → s.IsCee = true) →
        s.JSONValues.get k = some v → c.get k = some v)
    ∧ (s.IsCee = false → c.get "syslog_content" = some (.str s.Content))
    ∧ s.JSON ext = (match marshal c with
        | some b => .ret b none
        | none => .ret "" (some .marshal)) := by
  refine ⟨⟨?_, ?_, ?_, ?_, ?_, ?_, ?_⟩, ?_, ?_, json_of_fill ext s hseed hfill⟩
  · rw [fill_get ext s hfill]; simp
  · rw [fill_get ext s hfill]; simp
  · rw [fill_get ext s hfill]; simp
  · rw [fill_get ext s hfill]; simp
  · rw [fill_get ext s hfill]; simp
  · rw [fill_get ext s hfill]; simp
  · rw [fill_get ext s hfill]; simp
  · intro k v hk hcontent hv
    simp only [reservedKeys, List.mem_cons, List.mem_singleton, List.not_mem_nil, or_false,
      not_or] at hk
    obtain ⟨h1, h2, h3, h4, h5, h6, h7⟩ := hk
    have h8 : ¬ (k = "syslog_content" ∧ s.IsCee = false) := by
      rintro ⟨hk, hc⟩
      rw [hcontent hk] at hc
      exact Bool.noConfusion hc
    rw [fill_get ext s hfill, if_neg h8, if_neg h7, if_neg h6, if_neg h5, if_neg h4, if_neg h3,
      if_neg h2, if_neg h1, hv]
  · intro hc
    rw [fill_get ext s hfill]
    simp [hc]

/-- C7 at a CEE record whose `JSONValues` holds `syslog_host = "spoofed"` and
`a = 1`: the export has the record's host, and `a` as it was. -/
theorem json_reserved_keys_witness :
    sampleSpoofed.JSONValues.get "syslog_host" = some (.str "spoofed")
    ∧ sampleSpoofed.fill sampleExt (some []) = some sampleSpoofedExport
    ∧ sampleSpoofedExport.get "syslog_host" = some (.str "host.example.com")
    ∧ sampleSpoofedExport.get "a" = some (.number "1") :=
  ⟨rfl, rfl,
    (json_reserved_keys sampleExt sampleSpoofed (some []) sampleSpoofedExport rfl rfl).1.2.1,
    (json_reserved_keys sampleExt sampleSpoofed (some []) sampleSpoofedExport rfl rfl).2.1
      "a" (.number "1") (by decide) (by decide) rfl⟩

/-- C7 fails as stated: `syslog_content` is not one of the seven reserved
names, yet for a record with `IsCee` false that holds this key in
`JSONValues`, the export carries `Content` under it and not the value of
`JSONValues`. -/
theorem json_reserved_keys_counterexample :
    "syslog_content" ∉ reservedKeys
    ∧ sampleShadow.JSONValues.get "syslog_content" = some (.str "from the caller")
    ∧ (sampleShadow.fill sampleExt (some [])).bind (fun c => c.get "syslog_content")
        = some (.str " test")
    ∧ (sampleShadow.fill sampleExt (some [])).bind (fun c => c.get "syslog_content")
        ≠ sampleShadow.JSONValues.get "syslog_content"
    ∧ sampleShadow.JSON sampleExt
      = .ret ("\x7b\"syslog_content\":\" test\",\"syslog_facilitytext\":\"kern\","
          ++ "\"syslog_host\":\"host.example.com\",\"syslog_pid\":\"\","
          ++ "\"syslog_programname\":\"kernel\",\"syslog_severitytext\":\"warning\","
          ++ "\"syslog_tag\":\"kernel:\",\"syslog_time\":\"2016-03-08T14:59:36.293816Z\"\x7d")
          none :=
  ⟨by decide, rfl, rfl,
    fun h => absurd (Value.str.inj (Option.some.inj h)) (by decide), rfl⟩

/-- C8, as the code has it: for a record with `IsCee` true, the object `JSON`
encodes has the seven `syslog_` keys and every key of the body (of
`JSONValues`, and of `Content` where it was decoded at export), and `JSON`
itself adds no `syslog_content`: that key is in the export only when the body
has a key of that name, and then with the body's value. -/
theorem json_cee_export {T P : Type} (ext : Extern T P) (s : SyslogMsg T P) (c0 c : GoMap)
    (hcee : s.IsCee = true) (hseed : s.seed = .ok c0) (hfill : s.fill ext c0 = some c) :
    (∀ k, k ∈ reservedKeys → (c.get k).isSome)
    ∧ (∀ k, (s.JSONValues.get k).isSome → (c.get k).isSome)
    ∧ (∀ k, (c0.get k).isSome → (c.get k).isSome)
    ∧ (c.get "syslog_content" = match s.JSONValues.get "syslog_content" with
        | some v => some v
        | none => c0.get "syslog_content")
    ∧ (s.JSONValues.get "syslog_content" = none → c0.get "syslog_content" = none →
        c.get "syslog_content" = none)
    ∧ s.JSON ext = (match marshal c with
        | some b => .ret b none
        | none => .ret "" (some .marshal)) := by
  have hcontent : c.get "syslog_content" = match s.JSONValues.get "syslog_content" with
        | some v => some v
        | none => c0.get "syslog_content" := by
    rw [fill_get ext s hfill]
    simp [hcee]
  have hsome : ∀ k, (match s.JSONValues.get k with
        | some v => some v
        | none => c0.get k).isSome → (c.get k).isSome := by
    intro k hk
    rw [fill_get ext s hfill]
    repeat' split
    all_goals first
      | rfl
      | (rename_i heq; rw [heq] at hk; exact hk)
  refine ⟨?_, ?_, ?_, hcontent, ?_, json_of_fill ext s hseed hfill⟩
  · intro k hk
    simp only [reservedKeys, List.mem_cons, List.mem_singleton, List.not_mem_nil,
      or_false] at hk
    rw [fill_get ext s hfill]
    rcases hk with h | h | h | h | h | h | h <;> subst h <;> simp [hcee]
  · intro k hk
    apply hsome
    cases hg : s.JSONValues.get k with
    | none => simp [hg] at hk
    | some v => rfl
  · intro k hk
    apply hsome
    cases hg : s.JSONValues.get k with
    | none => exact hk
    | some v => rfl
  · intro h1 h2
    rw [hcontent, h1, h2]

/-- C8 at the record of `TestSyslogMsgJSONFromCEE`: `a` and the seven
`syslog_` keys are exported, `syslog_content` is not. -/
theorem json_cee_export_witness :
    sampleCee.fill sampleExt (some []) = some sampleCeeExport
    ∧ sampleCeeExport.get "a" = some (.number "1")
    ∧ sampleCeeExport.get "syslog_content" = none
    ∧ sampleCee.JSON sampleExt
      = .ret ("\x7b\"a\":1,\"syslog_facilitytext\":\"kern\","
          ++ "\"syslog_host\":\"host.example.com\",\"syslog_pid\":\"12\","
          ++ "\"syslog_programname\":\"test\",\"syslog_severitytext\":\"warning\","
          ++ "\"syslog_tag\":\"test[12]:\",\"syslog_time\":\"2016-03-08T14:59:36.293816Z\"\x7d")
          none :=
  ⟨rfl, rfl,
    (json_cee_export sampleExt sampleCee (some []) sampleCeeExport rfl rfl rfl).2.2.2.2.1
      rfl rfl,
    rfl⟩

/-- C8 fails as stated: for a CEE record whose body has a key named
`syslog_content`, `IsCee` is true and the export has the key `syslog_content`. -/
theorem json_cee_export_counterexample :
    sampleCeeShadow.IsCee = true
    ∧ (sampleCeeShadow.fill sampleExt (some [])).bind (fun c => c.get "syslog_content")
        = some (.str "from the body")
    ∧ sampleCeeShadow.JSON sampleExt
      = .ret ("\x7b\"syslog_content\":\"from the body\",\"syslog_facilitytext\":\"kern\","
          ++ "\"syslog_host\":\"host.example.com\",\"syslog_pid\":\"\","
          ++ "\"syslog_programname\":\"kernel\",\"syslog_severitytext\":\"warning\","
          ++ "\"syslog_tag\":\"kernel:\",\"syslog_time\":\"2016-03-08T14:59:36.293816Z\"\x7d")
          none :=
  ⟨rfl, rfl, rfl⟩

theorem assign_keys_nodup (m : Entries) (k : String) (v : Value)
    (h : (m.map Prod.fst).Nodup) : ((m.assign k v).map Prod.fst).Nodup := by
  unfold Entries.assign
  rw [List.map_cons, List.nodup_cons]
  constructor
  · intro hmem
    obtain ⟨e, he, hk⟩ := List.mem_map.1 hmem
    have hne := (List.mem_filter.1 he).2
    simp only [ne_eq, decide_not, Bool.not_eq_true', decide_eq_false_iff_not] at hne
    exact hne hk
  · exact h.sublist ((List.filter_sublist m).map Prod.fst)

theorem foldl_assign_nodup (ms : List (String × Value)) (acc : Entries)
    (h : (acc.map Prod.fst).Nodup) :
    ((ms.foldl (fun m e => Entries.assign e.1 e.2 m) acc).map Prod.fst).Nodup := by
  induction ms generalizing acc with
  | nil => exact h
  | cons e ms ih => exact ih _ (assign_keys_nodup acc e.1 e.2 h)

/-- The map of a decoded object has each key once. -/
theorem fromMembers_nodup (ms : List (String × Value)) :
    ((fromMembers ms).map Prod.fst).Nodup :=
  foldl_assign_nodup ms [] List.nodup_nil

theorem parseValue_object_nodup (fuel depth : Nat) (cs : List Char) (m : Entries)
    (r : List Char) (h : parseValue fuel depth cs = some (.object m, r)) :
    (m.map Prod.fst).Nodup := by
  cases fuel with
  | zero => simp [parseValue] at h
  | succ n =>
    unfold parseValue at h
    repeat' split at h
    all_goals simp only [Option.map_eq_some', Option.some.injEq, Prod.mk.injEq, reduceCtorEq,
      false_and, and_false, exists_false, Value.object.injEq] at h
    · obtain ⟨hm, _⟩ := h
      subst hm
      exact List.nodup_nil
    · obtain ⟨a, _, hm, _⟩ := h
      subst hm
      exact fromMembers_nodup _

theorem decodeObject_nodup (c : String) (m : Entries) (h : decodeObject c = .ok (some m)) :
    (m.map Prod.fst).Nodup := by
  unfold decodeObject at h
  split at h
  · cases h
  · rename_i m' hv
    have hm : m' = m := by
      injection h with h1
      exact Option.some.inj h1
    subst hm
    unfold decodeValue at hv
    simp only [Option.map_eq_some'] at hv
    obtain ⟨a, ha, ha1⟩ := hv
    obtain ⟨v, r⟩ := a
    simp only at ha1
    subst ha1
    exact parseValue_object_nodup _ _ _ _ _ ha
  · cases h
  · cases h

/-- Copying a map whose keys are distinct into an empty map gives that map. -/
theorem copyInto_empty (m : Entries) (h : (m.map Prod.fst).Nodup) :
    copyInto (some m) (some []) = some (some m) := by
  induction m with
  | nil => rfl
  | cons e m ih =>
    rw [List.map_cons, List.nodup_cons] at h
    have hrec := ih h.2
    simp only [copyInto, List.foldr_cons] at hrec ⊢
    rw [hrec]
    simp only [Option.some_bind, GoMap.set, Entries.assign, Option.some.injEq,
      List.cons.injEq, true_and]
    rw [List.filter_eq_self]
    intro a ha
    simp only [ne_eq, decide_not, Bool.not_eq_true', decide_eq_false_iff_not]
    intro hk
    exact h.1 (List.mem_map.2 ⟨a, ha, hk⟩)

theorem copyInto_of_len_zero (jv dst : GoMap) (h : jv.len = 0) : copyInto jv dst = some dst := by
  rcases (GoMap.len_zero_iff _).1 h with h | h <;> rw [h] <;> rfl

/-- C9: decoding at export and decoding at construction agree. For a CEE body
`c` that decodes to an object `m`, and whatever the other fields are, `JSON`
on the record with `optionDontParseJSON` set, `IsCee` true, `Content = c` and
an empty `JSONValues` returns what `JSON` returns on the record with
`optionDontParseJSON` unset, `IsCee` true and `JSONValues = m`; numbers are
kept as their literal text on both sides. -/
theorem json_lazy_eager {T P : Type} (ext : Extern T P) (s : SyslogMsg T P) (c content : String)
    (jv : GoMap) (m : Entries) (hjv : jv.len = 0) (hdec : eagerDecode c = .ok (some m)) :
    ({ s with optionDontParseJSON := true, IsCee := true, Content := c,
              JSONValues := jv } : SyslogMsg T P).JSON ext
      = ({ s with optionDontParseJSON := false, IsCee := true, Content := content,
                  JSONValues := some m } : SyslogMsg T P).JSON ext := by
  have hnodup := decodeObject_nodup c m hdec
  have hlazy : copyInto jv (some m) = some (some m) := copyInto_of_len_zero jv _ hjv
  have heager : copyInto (some m) (some []) = some (some m) := copyInto_empty m hnodup
  unfold eagerDecode at hdec
  unfold SyslogMsg.JSON SyslogMsg.seed SyslogMsg.fill
  simp only [Bool.and_self, if_true, hdec, Bool.false_and, Bool.false_eq_true, if_false, hlazy,
    heager, Option.some_bind]
  rfl

set_option maxRecDepth 8000 in
/-- C9 at the body `{"a":1}` (`TestSyslogMsgJSONFromCEEWithDontParseJSON`): both
records give the bytes that test wants; and at a body with a twenty-digit
integer and a number in exponent notation, which both come out as written. -/
theorem json_lazy_eager_witness :
    eagerDecode "\x7b\"a\":1\x7d" = .ok (some [("a", .number "1")])
    ∧ sampleLazy.JSON sampleExt
      = ({ sampleKernel with optionDontParseJSON := false, IsCee := true,
                             Content := "\x7b\"a\":1\x7d",
                             JSONValues := some [("a", .number "1")] }
          : SyslogMsg SampleTime SamplePri).JSON sampleExt
    ∧ sampleLazy.JSON sampleExt
      = .ret ("\x7b\"a\":1,\"syslog_facilitytext\":\"kern\","
          ++ "\"syslog_host\":\"host.example.com\",\"syslog_pid\":\"\","
          ++ "\"syslog_programname\":\"kernel\",\"syslog_severitytext\":\"warning\","
          ++ "\"syslog_tag\":\"kernel:\",\"syslog_time\":\"2016-03-08T14:59:36.293816Z\"\x7d")
          none
    ∧ ({ sampleLazy with Content := "\x7b\"n\":12345678901234567890,\"x\":1E+2\x7d" }
          : SyslogMsg SampleTime SamplePri).JSON sampleExt
      = ({ sampleKernel with optionDontParseJSON := false, IsCee := true,
                             Content := "",
                             JSONValues := some [("x", .number "1E+2"),
                                                 ("n", .number "12345678901234567890")] }
          : SyslogMsg SampleTime SamplePri).JSON sampleExt
    ∧ ({ sampleLazy with Content := "\x7b\"n\":12345678901234567890,\"x\":1E+2\x7d" }
          : SyslogMsg SampleTime SamplePri).JSON sampleExt
      = .ret ("\x7b\"n\":12345678901234567890,\"syslog_facilitytext\":\"kern\","
          ++ "\"syslog_host\":\"host.example.com\",\"syslog_pid\":\"\","
          ++ "\"syslog_programname\":\"kernel\",\"syslog_severitytext\":\"warning\","
          ++ "\"syslog_tag\":\"kernel:\",\"syslog_time\":\"2016-03-08T14:59:36.293816Z\","
          ++ "\"x\":1E+2\x7d")
          none :=
  ⟨rfl,
    json_lazy_eager sampleExt sampleKernel "\x7b\"a\":1\x7d" "\x7b\"a\":1\x7d" (some [])
      [("a", .number "1")] rfl rfl,
    rfl,
    json_lazy_eager sampleExt sampleLazy "\x7b\"n\":12345678901234567890,\"x\":1E+2\x7d" ""
      (some []) [("x", .number "1E+2"), ("n", .number "12345678901234567890")] rfl rfl,
    rfl⟩

/-- When `JSON` decodes `Content` and the decoding fails, `JSON` returns the
decoder's error together with empty bytes, and nothing else. -/
theorem json_decode_error {T P : Type} (ext : Extern T P) (s : SyslogMsg T P) (e : JSONError)
    (hopt : s.optionDontParseJSON = true) (hcee : s.IsCee = true)
    (hdec : decodeObject s.Content = .error e) : s.JSON ext = .ret "" (some e) := by
  unfold SyslogMsg.JSON SyslogMsg.seed
  simp [hopt, hcee, hdec]

/-- The decoding error of `JSON` at the plain text ` test`. -/
theorem json_decode_error_witness :
    ({ sampleNullBody with Content := " test" } : SyslogMsg SampleTime SamplePri).JSON sampleExt
      = .ret "" (some .malformed) :=
  json_decode_error sampleExt _ .malformed rfl rfl rfl

theorem copyInto_some (src : GoMap) (d : Entries) :
    ∃ d', copyInto src (some d) = some (some d') := by
  cases src with
  | none => exact ⟨d, rfl⟩
  | some m =>
    induction m with
    | nil => exact ⟨d, rfl⟩
    | cons e m ih =>
      obtain ⟨d', hd⟩ := ih
      simp only [copyInto, List.foldr_cons] at hd ⊢
      rw [hd]
      exact ⟨_, rfl⟩

theorem stamp_some {T P : Type} (ext : Extern T P) (s : SyslogMsg T P) (d : Entries) :
    ∃ d', s.stamp ext (some d) = some (some d') := by
  unfold SyslogMsg.stamp
  cases s.IsCee <;> exact ⟨_, rfl⟩

/-- Without `optionDontParseJSON`, or without `IsCee`, `JSON` does not decode
`Content`: it starts from the empty map, completes its map `content` without
a panic, and returns the encoding of that map, or the encoder's error. -/
theorem json_without_decode {T P : Type} (ext : Extern T P) (s : SyslogMsg T P)
    (h : s.optionDontParseJSON = false ∨ s.IsCee = false) :
    s.seed = .ok (some [])
    ∧ ∃ c, s.fill ext (some []) = some (some c)
      ∧ s.JSON ext = (match marshal (some c) with
          | some b => .ret b none
          | none => .ret "" (some .marshal)) := by
  have hseed : s.seed = .ok (some []) := by
    unfold SyslogMsg.seed
    rcases h with h | h <;> simp [h]
  obtain ⟨d, hd⟩ := copyInto_some s.JSONValues []
  obtain ⟨c, hc⟩ := stamp_some ext s d
  have hfill : s.fill ext (some []) = some (some c) := by
    unfold SyslogMsg.fill
    rw [hd]
    exact hc
  exact ⟨hseed, c, hfill, json_of_fill ext s hseed hfill⟩

/-- The plain record of `TestSyslogMsgJSONFromPlain` is exported without a decoding. -/
theorem json_without_decode_witness : sampleKernel.seed = .ok (some []) :=
  (json_without_decode sampleExt sampleKernel (Or.inl rfl)).1

/-- C10, the code at the failing input: for a CEE record with
`optionDontParseJSON` whose `Content` is the JSON value `null`, the decoding
reports no error and leaves the nil map, and `JSON` panics on its next
assignment instead of returning an error; for the plain text ` test` and for
the JSON array `[1,2]` it does return the decoder's error with empty bytes. -/
theorem json_null_body_panics :
    decodeObject "null" = .ok none
    ∧ sampleNullBody.JSON sampleExt = .panic
    ∧ ({ sampleNullBody with Content := " test" } : SyslogMsg SampleTime SamplePri).JSON sampleExt
        = .ret "" (some .malformed)
    ∧ ({ sampleNullBody with Content := "[1,2]" } : SyslogMsg SampleTime SamplePri).JSON sampleExt
        = .ret "" (some .unmarshalType) :=
  ⟨rfl, rfl, rfl, rfl⟩

/-! ## `AddTagArray` -/

/-- The call of `AddTagArray` on a key that holds an array. -/
theorem addTagArray_present {T P : Type} (s : SyslogMsg T P) (m : Entries) (key : String)
    (v : Value) (xs : List Value) (hm : s.JSONValues = some m)
    (hk : m.get key = some (.array xs)) :
    s.AddTagArray key v =
      if s.IsCee = true then
        ({ s with JSONValues := some (m.assign key (.array (xs ++ [v]))) }, .returned none)
      else
        match sliceFrom1 s.Content with
        | none =>
          ({ s with JSONValues := some (m.assign key (.array (xs ++ [v]))),
                    IsCee := true, Cee := " @cee:" }, .panicked)
        | some rest =>
          ({ s with JSONValues := some ((m.assign key (.array (xs ++ [v]))).assign "msg" rest),
                    IsCee := true, Cee := " @cee:" }, .returned none) := by
  unfold SyslogMsg.AddTagArray
  simp only [hm, GoMap.get, hk, GoMap.set]
  cases hcee : s.IsCee with
  | true => simp
  | false =>
    cases hsl : sliceFrom1 s.Content with
    | none => simp
    | some rest => simp

/-- The call of `AddTagArray` on a key that the map does not have. -/
theorem addTagArray_absent {T P : Type} (s : SyslogMsg T P) (m : Entries) (key : String)
    (v : Value) (hm : s.JSONValues = some m) (hk : m.get key = none) :
    s.AddTagArray key v =
      if s.IsCee = true then
        ({ s with JSONValues := some ((m.assign key (.array [])).assign key (.array [v])) },
          .returned none)
      else
        match sliceFrom1 s.Content with
        | none =>
          ({ s with JSONValues := some ((m.assign key (.array [])).assign key (.array [v])),
                    IsCee := true, Cee := " @cee:" }, .panicked)
        | some rest =>
          ({ s with JSONValues := some (((m.assign key (.array [])).assign key
                                    (.array [v])).assign "msg" rest),
                    IsCee := true, Cee := " @cee:" }, .returned none) := by
  unfold SyslogMsg.AddTagArray
  simp only [hm, GoMap.get, hk, GoMap.set, Entries.get_assign_self, List.nil_append]
  cases hcee : s.IsCee with
  | true => simp
  | false =>
    cases hsl : sliceFrom1 s.Content with
    | none => simp
    | some rest => simp

/-- The call of `AddTagArray` on the nil map panics. -/
theorem addTagArray_nil {T P : Type} (s : SyslogMsg T P) (key : String) (v : Value)
    (hm : s.JSONValues = none) : s.AddTagArray key v = (s, .panicked) := by
  unfold SyslogMsg.AddTagArray
  simp [hm, GoMap.get, GoMap.set]

/-- The call of `AddTagArray` on a key that holds something else than an array. -/
theorem addTagArray_other {T P : Type} (s : SyslogMsg T P) (key : String) (v v0 : Value)
    (hk : s.JSONValues.get key = some v0) (hna : ∀ xs, v0 ≠ .array xs) :
    s.AddTagArray key v = (s, .returned (some notAnArray)) := by
  unfold SyslogMsg.AddTagArray
  simp only [hk]
  cases v0 with
  | array xs => exact absurd rfl (hna xs)
  | null => rfl
  | bool b => rfl
  | number lit => rfl
  | str t => rfl
  | bytes b => rfl
  | object kvs => rfl
  | other enc => rfl

/-- What a successful call of `AddTagArray` did: the map was made, the key
held an array `xs` (the empty one when the key was absent), and the record
is the old one with `xs ++ [v]` under the key and, when it was not in CEE
mode, with `IsCee`, `Cee` and `msg` set. -/
theorem addTagArray_ok {T P : Type} (s : SyslogMsg T P) (key : String) (v : Value)
    (hok : (s.AddTagArray key v).2 = .returned none) :
    ∃ m xs m1, s.JSONValues = some m
      ∧ ((m.get key = some (.array xs) ∧ m1 = m)
          ∨ (m.get key = none ∧ xs = [] ∧ m1 = m.assign key (.array [])))
      ∧ ((s.IsCee = true
            ∧ (s.AddTagArray key v).1
                = { s with JSONValues := some (m1.assign key (.array (xs ++ [v]))) })
          ∨ (s.IsCee = false ∧ ∃ rest, sliceFrom1 s.Content = some rest
            ∧ (s.AddTagArray key v).1
                = { s with JSONValues := some ((m1.assign key (.array (xs ++ [v]))).assign "msg" rest),
                           IsCee := true, Cee := " @cee:" })) := by
  cases hm : s.JSONValues with
  | none =>
    rw [addTagArray_nil s key v hm] at hok
    cases hok
  | some m =>
    have tail : ∀ (xs : List Value) (m1 : Entries),
        s.AddTagArray key v =
          (if s.IsCee = true then
            ({ s with JSONValues := some (m1.assign key (.array (xs ++ [v]))) }, .returned none)
          else
            match sliceFrom1 s.Content with
            | none =>
              ({ s with JSONValues := some (m1.assign key (.array (xs ++ [v]))),
                        IsCee := true, Cee := " @cee:" }, .panicked)
            | some rest =>
              ({ s with JSONValues := some ((m1.assign key (.array (xs ++ [v]))).assign "msg" rest),
                        IsCee := true, Cee := " @cee:" }, .returned none)) →
        (s.IsCee = true
            ∧ (s.AddTagArray key v).1
                = { s with JSONValues := some (m1.assign key (.array (xs ++ [v]))) })
          ∨ (s.IsCee = false ∧ ∃ rest, sliceFrom1 s.Content = some rest
            ∧ (s.AddTagArray key v).1
                = { s with JSONValues := some ((m1.assign key (.array (xs ++ [v]))).assign "msg" rest),
                           IsCee := true, Cee := " @cee:" }) := by
      intro xs m1 heq
      cases hcee : s.IsCee with
      | true =>
        left
        rw [heq]
        simp [hcee]
      | false =>
        right
        rw [heq] at hok ⊢
        simp only [hcee, Bool.false_eq_true, if_false] at hok ⊢
        cases hsl : sliceFrom1 s.Content with
        | none =>
          rw [hsl] at hok
          cases hok
        | some rest => exact ⟨trivial, rest, rfl, rfl⟩
    cases hk : m.get key with
    | none =>
      refine ⟨m, [], m.assign key (.array []), rfl, Or.inr ⟨hk, rfl, rfl⟩, ?_⟩
      exact tail [] _ (addTagArray_absent s m key v hm hk)
    | some v0 =>
      cases v0 with
      | array xs =>
        refine ⟨m, xs, m, rfl, Or.inl ⟨hk, rfl⟩, ?_⟩
        exact tail xs m (addTagArray_present s m key v xs hm hk)
      | null =>
        rw [addTagArray_other s key v .null (by rw [hm]; exact hk) (fun _ h => by cases h)] at hok
        cases hok
      | bool b =>
        rw [addTagArray_other s key v (.bool b) (by rw [hm]; exact hk)
          (fun _ h => by cases h)] at hok
        cases hok
      | number lit =>
        rw [addTagArray_other s key v (.number lit) (by rw [hm]; exact hk)
          (fun _ h => by cases h)] at hok
        cases hok
      | str t =>
        rw [addTagArray_other s key v (.str t) (by rw [hm]; exact hk)
          (fun _ h => by cases h)] at hok
        cases hok
      | bytes b =>
        rw [addTagArray_other s key v (.bytes b) (by rw [hm]; exact hk)
          (fun _ h => by cases h)] at hok
        cases hok
      | object kvs =>
        rw [addTagArray_other s key v (.object kvs) (by rw [hm]; exact hk)
          (fun _ h => by cases h)] at hok
        cases hok
      | other enc =>
        rw [addTagArray_other s key v (.other enc) (by rw [hm]; exact hk)
          (fun _ h => by cases h)] at hok
        cases hok

theorem utf8Bytes_ne_nil (c : Char) : utf8Bytes c ≠ [] := by
  unfold utf8Bytes
  split
  · exact List.cons_ne_nil _ _
  · split
    · exact List.cons_ne_nil _ _
    · split
      · exact List.cons_ne_nil _ _
      · exact List.cons_ne_nil _ _

theorem bytesOf_eq_nil (t : String) : bytesOf t = [] ↔ t = "" := by
  unfold bytesOf
  constructor
  · intro h
    cases hd : t.data with
    | nil => exact String.ext hd
    | cons c cs =>
      rw [hd, List.flatMap_cons] at h
      exact absurd (List.append_eq_nil.1 h).1 (utf8Bytes_ne_nil c)
  · intro h
    subst h
    rfl

theorem sliceFrom1_none (t : String) : sliceFrom1 t = none ↔ t = "" := by
  rw [← bytesOf_eq_nil]
  unfold sliceFrom1
  cases bytesOf t with
  | nil => simp
  | cons b bs => simp

/-- The value of a Go string is a string, never an array. -/
theorem Value.ofBytes_ne_array (b : List Nat) (xs : List Value) : Value.ofBytes b ≠ .array xs := by
  unfold Value.ofBytes
  cases textOf b.length b with
  | none => exact fun h => Value.noConfusion h
  | some cs => exact fun h => Value.noConfusion h

theorem sliceFrom1_ne_array (t : String) (rest : Value) (h : sliceFrom1 t = some rest)
    (xs : List Value) : rest ≠ .array xs := by
  unfold sliceFrom1 at h
  cases hb : bytesOf t with
  | nil => simp [hb] at h
  | cons b bs =>
    simp only [hb, Option.some.injEq] at h
    subst h
    exact Value.ofBytes_ne_array bs xs

theorem char_valid_range (c : Char) :
    c.toNat < 55296 ∨ (57343 < c.toNat ∧ c.toNat < 1114112) := by
  have h := c.valid
  simp only [UInt32.isValidChar, Nat.isValidChar] at h
  exact h

/-- Decoding the UTF-8 encoding of a character gives the character back. -/
theorem decodeRune_utf8Bytes (c : Char) (rest : List Nat) :
    decodeRune (utf8Bytes c ++ rest) = some (c, rest) := by
  have hv := char_valid_range c
  have hc : ∀ n, n = c.toNat → Char.ofNat n = c := by
    intro n hn
    rw [hn]
    exact Char.ofNat_toNat c
  unfold utf8Bytes
  split
  · rename_i h1
    simp only [List.singleton_append, decodeRune, h1, if_true, hc _ rfl]
  · rename_i h1
    split
    · rename_i h2
      have hb0 : ¬ (192 + c.toNat / 64 < 128) := by omega
      have hb0' : 194 ≤ 192 + c.toNat / 64 ∧ 192 + c.toNat / 64 < 224 := by omega
      have hcont : isCont (128 + c.toNat % 64) = true := by
        simp only [isCont, decide_eq_true_eq]; omega
      simp only [List.cons_append, List.nil_append, decodeRune, hb0, if_false, hb0', and_self,
        if_true, hcont]
      rw [hc _ (by omega)]
    · rename_i h2
      split
      · rename_i h3
        have hb0 : ¬ (224 + c.toNat / 4096 < 128) := by omega
        have hb1 : ¬ (194 ≤ 224 + c.toNat / 4096 ∧ 224 + c.toNat / 4096 < 224) := by omega
        have hb2 : 224 ≤ 224 + c.toNat / 4096 ∧ 224 + c.toNat / 4096 < 240 := by omega
        have hcont : isCont (128 + c.toNat % 64) = true := by
          simp only [isCont, decide_eq_true_eq]; omega
        have hrange : (if 224 + c.toNat / 4096 = 224 then 160 else 128) ≤ 128 + c.toNat / 64 % 64
            ∧ 128 + c.toNat / 64 % 64 < (if 224 + c.toNat / 4096 = 237 then 160 else 192) := by
          constructor
          · split <;> omega
          · split <;> omega
        simp only [List.cons_append, List.nil_append, decodeRune, hb0, if_false, hb1, hb2,
          and_self, if_true, hcont, hrange, and_true]
        rw [hc _ (by omega)]
      · rename_i h3
        have hb0 : ¬ (240 + c.toNat / 262144 < 128) := by omega
        have hb1 : ¬ (194 ≤ 240 + c.toNat / 262144 ∧ 240 + c.toNat / 262144 < 224) := by omega
        have hb2 : ¬ (224 ≤ 240 + c.toNat / 262144 ∧ 240 + c.toNat / 262144 < 240) := by omega
        have hb3 : 240 ≤ 240 + c.toNat / 262144 ∧ 240 + c.toNat / 262144 < 245 := by omega
        have hcont : isCont (128 + c.toNat % 64) = true := by
          simp only [isCont, decide_eq_true_eq]; omega
        have hcont2 : isCont (128 + c.toNat / 64 % 64) = true := by
          simp only [isCont, decide_eq_true_eq]; omega
        have hrange : (if 240 + c.toNat / 262144 = 240 then 144 else 128)
              ≤ 128 + c.toNat / 4096 % 64
            ∧ 128 + c.toNat / 4096 % 64 < (if 240 + c.toNat / 262144 = 244 then 144 else 192) := by
          constructor
          · split <;> omega
          · split <;> omega
        simp only [List.cons_append, List.nil_append, decodeRune, hb0, if_false, hb1, hb2, hb3,
          and_self, if_true, hcont, hcont2, hrange, and_true]
        rw [hc _ (by omega)]

/-- The bytes of a text decode to that text. -/
theorem textOf_bytesOf (cs : List Char) (fuel : Nat) (h : cs.length ≤ fuel) :
    textOf fuel (cs.flatMap utf8Bytes) = some cs := by
  induction cs generalizing fuel with
  | nil => cases fuel <;> rfl
  | cons c cs ih =>
    rw [List.flatMap_cons]
    cases hb : utf8Bytes c with
    | nil => exact absurd hb (utf8Bytes_ne_nil c)
    | cons b bs =>
      cases fuel with
      | zero => simp at h
      | succ n =>
        have hd := decodeRune_utf8Bytes c (cs.flatMap utf8Bytes)
        rw [hb] at hd
        rw [List.cons_append]
        unfold textOf
        rw [← List.cons_append, hd]
        simp only [ih n (by simpa using h), Option.map_some']

theorem length_le_flatMap_utf8Bytes (cs : List Char) :
    cs.length ≤ (cs.flatMap utf8Bytes).length := by
  induction cs with
  | nil => exact Nat.le_refl _
  | cons c cs ih =>
    rw [List.flatMap_cons, List.length_append, List.length_cons]
    have h1 : 0 < (utf8Bytes c).length := List.length_pos.2 (utf8Bytes_ne_nil c)
    omega

/-- The Go string with the bytes of a text is that text. -/
theorem Value.ofBytes_bytesOf (cs : List Char) :
    Value.ofBytes (cs.flatMap utf8Bytes) = .str (String.mk cs) := by
  unfold Value.ofBytes
  rw [textOf_bytesOf cs _ (length_le_flatMap_utf8Bytes cs)]

/-- After a first character of one byte, `s[1:]` is `s` without that character. -/
theorem sliceFrom1_ascii (t : String) (c : Char) (cs : List Char) (hd : t.data = c :: cs)
    (hc : c.toNat < 128) : sliceFrom1 t = some (.str (String.mk cs)) := by
  unfold sliceFrom1 bytesOf
  rw [hd, List.flatMap_cons]
  have h1 : utf8Bytes c = [c.toNat] := by simp [utf8Bytes, hc]
  rw [h1]
  simp only [List.singleton_append]
  rw [Value.ofBytes_bytesOf]

/-- What a successful `AddTagArray` does to a record that was not in CEE
mode: `IsCee` and `Cee` are set and `msg` holds `Content[1:]`. -/
theorem addTagArray_promoted {T P : Type} (s : SyslogMsg T P) (key : String) (v : Value)
    (hcee : s.IsCee = false) (hok : (s.AddTagArray key v).2 = .returned none) :
    (s.AddTagArray key v).1.IsCee = true
    ∧ (s.AddTagArray key v).1.Cee = " @cee:"
    ∧ ∃ rest, sliceFrom1 s.Content = some rest
      ∧ (s.AddTagArray key v).1.JSONValues.get "msg" = some rest := by
  obtain ⟨m, xs, m1, _, _, hres⟩ := addTagArray_ok s key v hok
  rcases hres with ⟨ht, _⟩ | ⟨_, rest, hsl, hst⟩
  · rw [hcee] at ht
    cases ht
  · rw [hst]
    exact ⟨rfl, rfl, rest, hsl, Entries.get_assign_self _ _ _⟩

/-- Where the map is made, the key is absent or holds an array, and the record
is in CEE mode or has a content that is not empty, `AddTagArray` returns the
nil error. -/
theorem addTagArray_succeeds {T P : Type} (s : SyslogMsg T P) (m : Entries) (key : String)
    (v : Value) (hm : s.JSONValues = some m)
    (hk : m.get key = none ∨ ∃ xs, m.get key = some (.array xs))
    (hc : s.IsCee = true ∨ s.Content ≠ "") :
    (s.AddTagArray key v).2 = .returned none := by
  have hsl : s.IsCee = false → ∃ rest, sliceFrom1 s.Content = some rest := by
    intro hcee
    rcases hc with h | h
    · rw [hcee] at h
      cases h
    · cases hs : sliceFrom1 s.Content with
      | none => exact absurd ((sliceFrom1_none _).1 hs) h
      | some rest => exact ⟨rest, rfl⟩
  rcases hk with hk | ⟨xs, hk⟩
  · rw [addTagArray_absent s m key v hm hk]
    cases hcee : s.IsCee with
    | true => simp
    | false =>
      obtain ⟨rest, hr⟩ := hsl hcee
      simp [hr]
  · rw [addTagArray_present s m key v xs hm hk]
    cases hcee : s.IsCee with
    | true => simp
    | false =>
      obtain ⟨rest, hr⟩ := hsl hcee
      simp [hr]

/-- After a successful `AddTagArray` on a key other than `"msg"`, or on a
record in CEE mode, the key holds the array it held before (the empty one
when it was absent) with the value appended. -/
theorem addTagArray_appends {T P : Type} (s : SyslogMsg T P) (key : String) (v : Value)
    (hok : (s.AddTagArray key v).2 = .returned none)
    (hkey : key ≠ "msg" ∨ s.IsCee = true) :
    ∃ xs, (s.JSONValues.get key = some (.array xs) ∨ (s.JSONValues.get key = none ∧ xs = []))
      ∧ (s.AddTagArray key v).1.JSONValues.get key = some (.array (xs ++ [v])) := by
  obtain ⟨m, xs, m1, hm, hold, hres⟩ := addTagArray_ok s key v hok
  refine ⟨xs, ?_, ?_⟩
  · rw [hm]
    rcases hold with ⟨h, _⟩ | ⟨h, hx, _⟩
    · exact Or.inl h
    · exact Or.inr ⟨h, hx⟩
  · rcases hres with ⟨_, hst⟩ | ⟨hcee, rest, _, hst⟩
    · rw [hst]
      exact Entries.get_assign_self _ _ _
    · rcases hkey with hne | ht
      · rw [hst]
        show Entries.get _ key = _
        rw [Entries.get_assign_ne _ _ _ _ hne]
        exact Entries.get_assign_self _ _ _
      · rw [hcee] at ht
        cases ht

/-- C11: when the key is present in `JSONValues` and its value is not an
array (`[]interface{}`), `AddTagArray` returns the error "tags key in message
was not an array" and leaves the record as it was: `JSONValues`, `IsCee`,
`Cee` and every other field. -/
theorem addTagArray_type_mismatch {T P : Type} (s : SyslogMsg T P) (key : String)
    (v v0 : Value) (hk : s.JSONValues.get key = some v0) (hna : ∀ xs, v0 ≠ .array xs) :
    (s.AddTagArray key v).2 = .returned (some notAnArray)
    ∧ (s.AddTagArray key v).1 = s
    ∧ (s.AddTagArray key v).1.JSONValues = s.JSONValues
    ∧ (s.AddTagArray key v).1.IsCee = s.IsCee
    ∧ (s.AddTagArray key v).1.Cee = s.Cee := by
  have h := addTagArray_other s key v v0 hk hna
  rw [h]
  exact ⟨rfl, rfl, rfl, rfl, rfl⟩

/-- C11 at a record whose key `a` holds the string `b`. -/
theorem addTagArray_type_mismatch_witness :
    sampleJSON.JSONValues.get "a" = some (.str "b")
    ∧ (sampleJSON.AddTagArray "a" (.str "trace")).2
        = .returned (some "tags key in message was not an array")
    ∧ (sampleJSON.AddTagArray "a" (.str "trace")).1.IsCee = false :=
  ⟨rfl,
    (addTagArray_type_mismatch sampleJSON "a" (.str "trace") (.str "b") rfl
      (fun _ h => Value.noConfusion h)).1,
    (addTagArray_type_mismatch sampleJSON "a" (.str "trace") (.str "b") rfl
      (fun _ h => Value.noConfusion h)).2.2.2.1⟩

/-- C12, the code at the failing input: on the record with `IsCee` false and
the content `é test`, whose first character takes two bytes, and the absent
key `tags`, `AddTagArray` returns the nil error and sets `IsCee` and `Cee`,
but `msg` is not ` test`, the content without its first character: it is
`Content[1:]`, the bytes of the content without the first one, which start
with the second byte of `é` (`0xA9`) and are not valid UTF-8; in the JSON
encoding that byte is written as the escape of U+FFFD. Where the first
character of the content takes one byte, as the space of ` test` does, every
successful call on a record with `IsCee` false does what the claim says:
`IsCee` is true, `Cee` is `" @cee:"` and `msg` is the content without its
first character. -/
theorem addTagArray_promotes :
    sampleAccent.IsCee = false ∧ sampleAccent.Content = "é test"
    ∧ sampleAccent.JSONValues.get "tags" = none
    ∧ (sampleAccent.AddTagArray "tags" (.str "trace")).2 = .returned none
    ∧ (sampleAccent.AddTagArray "tags" (.str "trace")).1.IsCee = true
    ∧ (sampleAccent.AddTagArray "tags" (.str "trace")).1.Cee = " @cee:"
    ∧ bytesOf "é test" = [195, 169, 32, 116, 101, 115, 116]
    ∧ (sampleAccent.AddTagArray "tags" (.str "trace")).1.JSONValues.get "msg"
        = some (.bytes [169, 32, 116, 101, 115, 116])
    ∧ (sampleAccent.AddTagArray "tags" (.str "trace")).1.JSONValues.get "msg"
        ≠ some (.str " test")
    ∧ encodeValue (.bytes [169, 32, 116, 101, 115, 116]) = some "\"\\ufffd test\""
    ∧ (sampleMsg.AddTagArray "tags" (.str "trace")).1.JSONValues.get "msg"
        = some (.str "test")
    ∧ ∀ (T P : Type) (s : SyslogMsg T P) (key : String) (v : Value) (c : Char)
        (cs : List Char), s.IsCee = false → (s.AddTagArray key v).2 = .returned none →
        s.Content.data = c :: cs → c.toNat < 128 →
        (s.AddTagArray key v).1.IsCee = true ∧ (s.AddTagArray key v).1.Cee = " @cee:"
        ∧ (s.AddTagArray key v).1.JSONValues.get "msg" = some (.str (String.mk cs)) := by
  refine ⟨rfl, rfl, rfl, rfl, rfl, rfl, rfl, rfl, fun h => Value.noConfusion (Option.some.inj h),
    rfl, rfl, ?_⟩
  intro T P s key v c cs hcee hok hd hc
  obtain ⟨h1, h2, rest, hsl, hmsg⟩ := addTagArray_promoted s key v hcee hok
  rw [sliceFrom1_ascii s.Content c cs hd hc] at hsl
  rw [hmsg, ← Option.some.inj hsl]
  exact ⟨h1, h2, rfl⟩

/-- C13, the code at the failing input: `AddTagArray("msg", "trace")` on the
record of `<4>... kernel[12]: test`, which is not in CEE mode and has no key
`msg`, returns the nil error, and afterwards `msg` holds the string `test`
and not the array with `trace` in it: the promotion wrote over it. -/
theorem addTagArray_msg_key_overwritten :
    sampleMsg.IsCee = false ∧ sampleMsg.JSONValues.get "msg" = none
    ∧ (sampleMsg.AddTagArray "msg" (.str "trace")).2 = .returned none
    ∧ (sampleMsg.AddTagArray "msg" (.str "trace")).1.JSONValues = some [("msg", .str "test")]
    ∧ (sampleMsg.AddTagArray "msg" (.str "trace")).1.JSONValues.get "msg"
        ≠ some (.array [.str "trace"]) :=
  ⟨rfl, rfl, rfl, rfl, fun h => Value.noConfusion (Option.some.inj h)⟩

/-- On a record in CEE mode, `AddTagArray` on a key other than `"msg"` leaves
`msg` as it is, however the call ends. -/
theorem addTagArray_cee_keeps_msg {T P : Type} (s : SyslogMsg T P) (key : String) (v : Value)
    (hcee : s.IsCee = true) (hne : key ≠ "msg") :
    (s.AddTagArray key v).1.JSONValues.get "msg" = s.JSONValues.get "msg" := by
  have hmsg : "msg" ≠ key := fun h => hne h.symm
  cases hm : s.JSONValues with
  | none => rw [addTagArray_nil s key v hm, hm]
  | some m =>
    cases hk : m.get key with
    | none =>
      rw [addTagArray_absent s m key v hm hk]
      simp only [hcee, if_true]
      show Entries.get _ "msg" = Entries.get m "msg"
      rw [Entries.get_assign_ne _ _ _ _ hmsg, Entries.get_assign_ne _ _ _ _ hmsg]
    | some v0 =>
      by_cases harr : ∃ xs, v0 = .array xs
      · obtain ⟨xs, hx⟩ := harr
        subst hx
        rw [addTagArray_present s m key v xs hm hk]
        simp only [hcee, if_true]
        show Entries.get _ "msg" = Entries.get m "msg"
        rw [Entries.get_assign_ne _ _ _ _ hmsg]
      · rw [addTagArray_other s key v v0 (by rw [hm]; exact hk)
          (fun xs h => harr ⟨xs, h⟩), hm]

/-- After a successful `AddTagArray` on a record that was not in CEE mode, no
later `AddTagArray` changes `msg`, whatever its key and however it ends. -/
theorem addTagArray_second_keeps_msg {T P : Type} (s : SyslogMsg T P) (key key2 : String)
    (v v2 : Value) (hcee : s.IsCee = false) (hok : (s.AddTagArray key v).2 = .returned none) :
    ((s.AddTagArray key v).1.AddTagArray key2 v2).1.JSONValues.get "msg"
      = (s.AddTagArray key v).1.JSONValues.get "msg" := by
  obtain ⟨m, xs, m1, _, _, hres⟩ := addTagArray_ok s key v hok
  rcases hres with ⟨ht, _⟩ | ⟨_, rest, hsl, hst⟩
  · rw [hcee] at ht
    cases ht
  · have h1 : (s.AddTagArray key v).1.IsCee = true := by rw [hst]
    have h2 : (s.AddTagArray key v).1.JSONValues.get "msg" = some rest := by
      rw [hst]
      exact Entries.get_assign_self _ _ _
    by_cases hk2 : key2 = "msg"
    · subst hk2
      rw [addTagArray_other (s.AddTagArray key v).1 "msg" v2 rest h2
        (sliceFrom1_ne_array s.Content rest hsl)]
    · exact addTagArray_cee_keeps_msg _ key2 v2 h1 hk2

/-- C14: `AddTagArray` promotes at most once. A successful `AddTagArray` on a
record in CEE mode changes the value at the key and nothing else: `IsCee`,
`Cee` and every other field keep their values, every other key of `JSONValues`
keeps its value (`msg` too, when it is not the key), and the key holds its
former array (the empty one when it was absent) with the value appended. And
every successful `AddTagArray` leaves the record in CEE mode, so a later call
does not write `msg` again: after a first call that promoted the record, no
second `AddTagArray` changes `msg`, whatever its key. -/
theorem addTagArray_cee_frame {T P : Type} (s : SyslogMsg T P) (key : String) (v : Value)
    (hcee : s.IsCee = true) (hok : (s.AddTagArray key v).2 = .returned none) :
    ((s.AddTagArray key v).1.IsCee = true ∧ (s.AddTagArray key v).1.Cee = s.Cee)
    ∧ ((s.AddTagArray key v).1.Pri = s.Pri ∧ (s.AddTagArray key v).1.Time = s.Time
      ∧ (s.AddTagArray key v).1.Host = s.Host ∧ (s.AddTagArray key v).1.Tag = s.Tag
      ∧ (s.AddTagArray key v).1.IsJSON = s.IsJSON
      ∧ (s.AddTagArray key v).1.optionDontParseJSON = s.optionDontParseJSON
      ∧ (s.AddTagArray key v).1.Content = s.Content
      ∧ (s.AddTagArray key v).1.timeFormat = s.timeFormat)
    ∧ (∀ k, k ≠ key → (s.AddTagArray key v).1.JSONValues.get k = s.JSONValues.get k)
    ∧ (key ≠ "msg" → (s.AddTagArray key v).1.JSONValues.get "msg" = s.JSONValues.get "msg")
    ∧ (∃ xs, (s.JSONValues.get key = some (.array xs)
              ∨ (s.JSONValues.get key = none ∧ xs = []))
        ∧ (s.AddTagArray key v).1.JSONValues.get key = some (.array (xs ++ [v])))
    ∧ (∀ (s0 : SyslogMsg T P) (k0 : String) (v0 : Value),
        (s0.AddTagArray k0 v0).2 = .returned none → (s0.AddTagArray k0 v0).1.IsCee = true)
    ∧ (∀ (s0 : SyslogMsg T P) (k0 k2 : String) (v0 v2 : Value), s0.IsCee = false →
        (s0.AddTagArray k0 v0).2 = .returned none →
        ((s0.AddTagArray k0 v0).1.AddTagArray k2 v2).1.JSONValues.get "msg"
          = (s0.AddTagArray k0 v0).1.JSONValues.get "msg") := by
  obtain ⟨m, xs, m1, hm, hold, hres⟩ := addTagArray_ok s key v hok
  have hframe : ∀ k, k ≠ key →
      (s.AddTagArray key v).1.JSONValues.get k = s.JSONValues.get k := by
    intro k hk
    rcases hres with ⟨_, hst⟩ | ⟨hf, _⟩
    · rw [hst, hm]
      show Entries.get _ k = Entries.get m k
      rw [Entries.get_assign_ne _ _ _ _ hk]
      rcases hold with ⟨_, h1⟩ | ⟨_, _, h1⟩
      · rw [h1]
      · rw [h1, Entries.get_assign_ne _ _ _ _ hk]
    · rw [hcee] at hf
      cases hf
  refine ⟨?_, ?_, hframe, fun hne => hframe "msg" (fun h => hne h.symm), ?_, ?_,
    fun s0 k0 k2 v0 v2 h0 h1 => addTagArray_second_keeps_msg s0 k0 k2 v0 v2 h0 h1⟩
  · rcases hres with ⟨_, hst⟩ | ⟨hf, _⟩
    · rw [hst]
      exact ⟨hcee, rfl⟩
    · rw [hcee] at hf
      cases hf
  · rcases hres with ⟨_, hst⟩ | ⟨hf, _⟩
    · rw [hst]
      exact ⟨rfl, rfl, rfl, rfl, rfl, rfl, rfl, rfl⟩
    · rw [hcee] at hf
      cases hf
  · exact addTagArray_appends s key v hok (Or.inr hcee)
  · intro s0 k0 v0 h0
    obtain ⟨_, _, _, _, _, hres0⟩ := addTagArray_ok s0 k0 v0 h0
    rcases hres0 with ⟨ht, hst⟩ | ⟨_, _, _, hst⟩
    · rw [hst]
      exact ht
    · rw [hst]

/-- C14 at two calls in a row: the first promotes the record of
`<4>... kernel[12]: test` and writes `msg`, the second, on the record the first
left, appends to `tags` and leaves `msg`, `IsCee` and `Cee` as they are. -/
theorem addTagArray_cee_frame_witness :
    (sampleMsg.AddTagArray "tags" (.str "trace")).1 = sampleTraced
    ∧ (sampleTraced.AddTagArray "tags" (.str "again")).1.JSONValues.get "msg"
        = some (.str "test")
    ∧ (sampleTraced.AddTagArray "tags" (.str "again")).1.JSONValues.get "tags"
        = some (.array [.str "trace", .str "again"])
    ∧ (sampleTraced.AddTagArray "tags" (.str "again")).1.Cee = " @cee:" :=
  ⟨rfl,
    (addTagArray_cee_frame sampleTraced "tags" (.str "again") rfl rfl).2.2.2.1 (by decide),
    rfl,
    (addTagArray_cee_frame sampleTraced "tags" (.str "again") rfl rfl).1.2⟩

/-- C20, the code at the failing input: on the record `NewSyslogMsg` makes,
whose `Content` is empty and whose map is made and empty, `AddTagArray` panics
for every key and value: `Content[1:]` is out of range. The array and the CEE
mode have been written by then. With a content that is not empty the call
returns the nil error. -/
theorem addTagArray_fresh_panics {T P : Type} (ext : Extern T P) (key : String) (v : Value) :
    (NewSyslogMsg ext).Content = "" ∧ (NewSyslogMsg ext).JSONValues = some []
    ∧ (NewSyslogMsg ext).IsCee = false
    ∧ ((NewSyslogMsg ext).AddTagArray key v).2 = .panicked
    ∧ ((NewSyslogMsg ext).AddTagArray key v).1.IsCee = true
    ∧ ((NewSyslogMsg ext).AddTagArray key v).1.JSONValues.get key = some (.array [v])
    ∧ ∀ content : String, content ≠ "" →
        (({ NewSyslogMsg ext with Content := content } : SyslogMsg T P).AddTagArray key v).2
          = .returned none := by
  refine ⟨rfl, rfl, rfl, ?_, ?_, ?_, ?_⟩
  · rw [addTagArray_absent (NewSyslogMsg ext) [] key v rfl rfl]
    rfl
  · rw [addTagArray_absent (NewSyslogMsg ext) [] key v rfl rfl]
    rfl
  · rw [addTagArray_absent (NewSyslogMsg ext) [] key v rfl rfl]
    exact Entries.get_assign_self _ _ _
  · intro content hne
    exact addTagArray_succeeds _ [] key v rfl (Or.inl rfl) (Or.inr hne)

/-! ## `String`: the transition to CEE mode and the encoding failure -/

/-- In the plain branch `String` returns a line. -/
theorem string_plain_returns {T P : Type} (ext : Extern T P) (s : SyslogMsg T P)
    (hempty : s.JSONValues.len = 0)
    (hmode : s.IsJSON = false ∨ s.optionDontParseJSON = true) :
    (s.String ext).2 ≠ none := by
  rw [string_plain_branch ext s hempty hmode]
  exact fun h => Option.noConfusion h

/-- C15, as the code has it: for a record whose `JSONValues` is not empty,
`String` makes the transition to CEE mode when `IsJSON` is false or
`optionDontParseJSON` is set: afterwards `IsCee` is true, `Cee` is `" @cee:"`
and `JSONValues["msg"]` is `Content` without its leading spaces. When `IsJSON`
is true and `optionDontParseJSON` is not set, `String` leaves the record as it
is: `IsCee`, `Cee` and `JSONValues` are what they were. -/
theorem string_transition {T P : Type} (ext : Extern T P) (s : SyslogMsg T P)
    (hne : 0 < s.JSONValues.len) :
    ((s.IsJSON = false ∨ s.optionDontParseJSON = true) →
      (s.String ext).1.IsCee = true ∧ (s.String ext).1.Cee = " @cee:"
      ∧ (s.String ext).1.JSONValues.get "msg" = some (.str (trimLeftSpaces s.Content)))
    ∧ ((s.IsJSON = true ∧ s.optionDontParseJSON = false) →
      (s.String ext).1 = s ∧ (s.String ext).1.IsCee = s.IsCee ∧ (s.String ext).1.Cee = s.Cee
      ∧ (s.String ext).1.JSONValues = s.JSONValues) := by
  constructor
  · intro hmode
    obtain ⟨e, es, hm⟩ := (GoMap.len_pos_iff _).1 hne
    rw [string_promote_eq ext s (e :: es) hm hne hmode]
    exact ⟨rfl, rfl, Entries.get_assign_self _ _ _⟩
  · rintro ⟨hj, hp⟩
    rw [string_json_branch ext s hj hp]
    exact ⟨rfl, rfl, rfl, rfl⟩

/-- C15 at the record of `TestSyslogMsgPlainWithAddedKeys`, which is not a JSON
message: it is in CEE mode after `String`. -/
theorem string_transition_witness :
    (sampleTagged.String sampleExt).1.IsCee = true
    ∧ (sampleTagged.String sampleExt).1.Cee = " @cee:"
    ∧ (sampleTagged.String sampleExt).1.JSONValues.get "msg" = some (.str "test") :=
  (string_transition sampleExt sampleTagged (by decide)).1 (Or.inl rfl)

/-- C15 fails as stated: the record with the JSON body `{"a":"b"}` has a
`JSONValues` that is not empty and `IsJSON` true; `String` returns its line,
and afterwards `IsCee` is still false, `Cee` is still empty and there is no
key `msg`. -/
theorem string_transition_counterexample :
    0 < sampleJSON.JSONValues.len ∧ sampleJSON.IsJSON = true
    ∧ (sampleJSON.String sampleExt).2
        = some "<4>2016-03-08T14:59:36.293816+00:00 host.example.com kernel[12]:\x7b\"a\":\"b\"\x7d\n"
    ∧ (sampleJSON.String sampleExt).1.IsCee = false
    ∧ (sampleJSON.String sampleExt).1.Cee = ""
    ∧ (sampleJSON.String sampleExt).1.JSONValues.get "msg" = none :=
  ⟨by decide, rfl, rfl, rfl, rfl, rfl⟩

/-- C17, as the code has it: when `String` aborts on an encoding failure
(`panic(err)`), the record is as before the call only in the JSON branch
(`IsJSON` true, `optionDontParseJSON` not set). Otherwise the map is not
empty and the three assignments of the promotion have been made before the
encoding was tried: afterwards `IsCee` is true, `Cee` is `" @cee:"`, `msg`
holds `Content` without its leading spaces; the other keys and fields are as
before, and it is the map with `msg` that has no encoding. -/
theorem string_encoding_failure {T P : Type} (ext : Extern T P) (s : SyslogMsg T P)
    (hfail : (s.String ext).2 = none) :
    ((s.IsJSON = true ∧ s.optionDontParseJSON = false) →
      (s.String ext).1 = s ∧ marshal s.JSONValues = none)
    ∧ ((s.IsJSON = false ∨ s.optionDontParseJSON = true) →
      0 < s.JSONValues.len
      ∧ ((s.String ext).1.IsCee = true ∧ (s.String ext).1.Cee = " @cee:"
        ∧ (s.String ext).1.JSONValues.get "msg" = some (.str (trimLeftSpaces s.Content)))
      ∧ (∀ k, k ≠ "msg" → (s.String ext).1.JSONValues.get k = s.JSONValues.get k)
      ∧ ((s.String ext).1.Pri = s.Pri ∧ (s.String ext).1.Time = s.Time
        ∧ (s.String ext).1.Host = s.Host ∧ (s.String ext).1.Tag = s.Tag
        ∧ (s.String ext).1.IsJSON = s.IsJSON
        ∧ (s.String ext).1.optionDontParseJSON = s.optionDontParseJSON
        ∧ (s.String ext).1.Content = s.Content ∧ (s.String ext).1.timeFormat = s.timeFormat)
      ∧ marshal (s.String ext).1.JSONValues = none) := by
  constructor
  · rintro ⟨hj, hp⟩
    rw [string_json_branch ext s hj hp] at hfail ⊢
    refine ⟨rfl, ?_⟩
    cases hmar : marshal s.JSONValues with
    | none => rfl
    | some b =>
      rw [hmar] at hfail
      cases hfail
  · intro hmode
    have hne : 0 < s.JSONValues.len := by
      by_contra hlen
      exact string_plain_returns ext s (Nat.eq_zero_of_not_pos hlen) hmode hfail
    obtain ⟨e, es, hm⟩ := (GoMap.len_pos_iff _).1 hne
    rw [string_promote_eq ext s (e :: es) hm hne hmode] at hfail ⊢
    refine ⟨hne, ⟨rfl, rfl, Entries.get_assign_self _ _ _⟩, ?_,
      ⟨rfl, rfl, rfl, rfl, rfl, rfl, rfl, rfl⟩, ?_⟩
    · intro k hk
      rw [hm]
      exact Entries.get_assign_ne _ _ _ _ hk
    · cases hmar : marshal (some (Entries.assign "msg" (.str (trimLeftSpaces s.Content))
          (e :: es))) with
      | none => rfl
      | some b =>
        rw [hmar] at hfail
        cases hfail

/-- C17 at a JSON message with a channel in its map: `String` panics and the
record is as it was. -/
theorem string_encoding_failure_witness :
    (sampleJSONChannel.String sampleExt).2 = none
    ∧ (sampleJSONChannel.String sampleExt).1 = sampleJSONChannel :=
  ⟨rfl, ((string_encoding_failure sampleExt sampleJSONChannel rfl).1 ⟨rfl, rfl⟩).1⟩

/-- C17 fails as stated: for the record of `<4>... kernel[12]: test` with a
channel under the key `ch`, `String` panics, and afterwards `IsCee` is true,
`Cee` is `" @cee:"` and `msg` is set, none of which was so before the call. -/
theorem string_encoding_failure_counterexample :
    marshal sampleChannel.JSONValues = none
    ∧ (sampleChannel.String sampleExt).2 = none
    ∧ (sampleChannel.IsCee = false ∧ (sampleChannel.String sampleExt).1.IsCee = true)
    ∧ (sampleChannel.Cee = "" ∧ (sampleChannel.String sampleExt).1.Cee = " @cee:")
    ∧ (sampleChannel.JSONValues.get "msg" = none
      ∧ (sampleChannel.String sampleExt).1.JSONValues.get "msg" = some (.str "test")) :=
  ⟨rfl, rfl, ⟨rfl, rfl⟩, ⟨rfl, rfl⟩, ⟨rfl, rfl⟩⟩

/-! ## `SetContent` -/

/-- C16, the code at the failing input: `SetContent` does not assign `IsJSON`.
The text `{"a":"b"}` decodes as a JSON object, and after
`SetContent("{\"a\":\"b\"}")` on the record `NewSyslogMsg` makes, `IsJSON` is
false, whatever the classifier returns; on every record `IsJSON` is after
`SetContent` what it was before, also where it was true and the new content
is plain text. -/
theorem setContent_leaves_isJSON {T P E : Type} (ext : Extern T P) (classify : Classifier E) :
    decodeObject "\x7b\"a\":\"b\"\x7d" = .ok (some [("a", .str "b")])
    ∧ (NewSyslogMsg ext).IsJSON = false
    ∧ ((NewSyslogMsg ext).SetContent classify "\x7b\"a\":\"b\"\x7d").1.IsJSON = false
    ∧ (∀ (s : SyslogMsg T P) (c : String), (s.SetContent classify c).1.IsJSON = s.IsJSON)
    ∧ ((sampleJSON.SetContent sampleClassify "this is a non json message").1.IsJSON = true
      ∧ (sampleJSON.SetContent sampleClassify "this is a non json message").1.Content
          = "this is a non json message") :=
  ⟨rfl, rfl, rfl, fun _ _ => rfl, rfl, rfl⟩

/-- C18: `SetContent` stores what the content classifier returns, with or
without an error: afterwards `Content` is the classifier's content text and
`JSONValues` the classifier's map, the returned error is the classifier's
error (nil when it reports none), and `Pri`, `Time`, `Host`, `Tag`, `IsCee`,
`Cee` and the other fields keep their values. -/
theorem setContent_stores {T P E : Type} (classify : Classifier E) (s : SyslogMsg T P)
    (c : String) :
    ((s.SetContent classify c).1.Content = (classify c).1.Content
      ∧ (s.SetContent classify c).1.JSONValues = (classify c).1.JSONValues
      ∧ (s.SetContent classify c).2 = (classify c).2)
    ∧ ((classify c).2 = none → (s.SetContent classify c).2 = none)
    ∧ (∀ e, (classify c).2 = some e →
        (s.SetContent classify c).2 = some e
        ∧ (s.SetContent classify c).1.Content = (classify c).1.Content
        ∧ (s.SetContent classify c).1.JSONValues = (classify c).1.JSONValues)
    ∧ ((s.SetContent classify c).1.Pri = s.Pri ∧ (s.SetContent classify c).1.Time = s.Time
      ∧ (s.SetContent classify c).1.Host = s.Host ∧ (s.SetContent classify c).1.Tag = s.Tag
      ∧ (s.SetContent classify c).1.IsCee = s.IsCee ∧ (s.SetContent classify c).1.Cee = s.Cee
      ∧ (s.SetContent classify c).1.IsJSON = s.IsJSON
      ∧ (s.SetContent classify c).1.optionDontParseJSON = s.optionDontParseJSON
      ∧ (s.SetContent classify c).1.timeFormat = s.timeFormat) := by
  refine ⟨⟨rfl, rfl, rfl⟩, ?_, ?_, ⟨rfl, rfl, rfl, rfl, rfl, rfl, rfl, rfl, rfl⟩⟩
  · intro h
    exact h
  · intro e h
    exact ⟨h, rfl, rfl⟩

/-! ## `Tag.String` -/

theorem length_zero_iff (t : String) : t.length = 0 ↔ t = "" := by
  constructor
  · intro h
    apply String.ext
    exact List.length_eq_zero.1 h
  · intro h
    subst h
    rfl

/-- C19: `Tag.String` is a function of the three fields of the tag: it is
`Program` when `Pid` is empty and `Program[Pid]` otherwise, followed by `:`
exactly when `HasColon` is true; so `kernel`, no pid, colon gives `kernel:` and
`test`, pid `12`, colon gives `test[12]:`. -/
theorem tag_string (t : Tag) :
    t.String =
      (if t.Pid = "" then t.Program else t.Program ++ "[" ++ t.Pid ++ "]")
        ++ (if t.HasColon = true then ":" else "")
    ∧ (∀ t2 : Tag, t2.Program = t.Program → t2.Pid = t.Pid → t2.HasColon = t.HasColon →
        t2.String = t.String)
    ∧ Tag.String { Program := "kernel", Pid := "", HasColon := true } = "kernel:"
    ∧ Tag.String { Program := "test", Pid := "12", HasColon := true } = "test[12]:"
    ∧ Tag.String { Program := "nginx", Pid := "", HasColon := false } = "nginx" := by
  refine ⟨?_, ?_, by decide, by decide, by decide⟩
  · unfold Tag.String
    by_cases hp : t.Pid = ""
    · have hl : t.Pid.length = 0 := (length_zero_iff _).2 hp
      simp [hp]
    · have hl : ¬ t.Pid.length = 0 := fun h => hp ((length_zero_iff _).1 h)
      simp [hp, hl]
  · intro t2 h1 h2 h3
    cases t2
    cases t
    simp only at h1 h2 h3
    subst h1 h2 h3
    rfl

end Captainslog
